import Mathlib

/-!
# A verification development for the UCX put ping-pong benchmark (`ucx.c`)

The development embeds the functions of `ucx.c` in Lean:

* `bench`'s report arithmetic (lines 334-340), with C's usual arithmetic
  conversions made explicit, `double` idealised as `ℚ`;
* `main`'s size sweep and the lines written to stdout (lines 411-418);
* `comm_init`, `create_ucp_endpoints`, `reg_buffer`, `comm_finalize` as
  transformers of a ledger of held resources and of the process-wide
  variables, the outcome of each external call being supplied by an
  environment record;
* `bench`'s warmup and ping-pong protocol (lines 250-379) as a two-rank
  interleaving machine over byte buffers.
-/

namespace Ucx

/-! ## Report arithmetic of `bench` (lines 332-341) -/

/-- Value of a C arithmetic expression: an integer type or a `double`
(idealised as a rational). -/
inductive CVal where
  | int (v : Int)
  | dbl (q : ℚ)
  deriving DecidableEq

namespace CVal

/-- Conversion of an operand to `double`. -/
def toQ : CVal → ℚ
  | int v => (v : ℚ)
  | dbl q => q

/-- C multiplication under the usual arithmetic conversions. -/
def mul : CVal → CVal → CVal
  | int a, int b => int (a * b)
  | a, b => dbl (a.toQ * b.toQ)

/-- C division under the usual arithmetic conversions: two integer operands
divide with truncation toward zero, otherwise the division is a `double` one. -/
def div : CVal → CVal → CVal
  | int a, int b => int (Int.tdiv a b)
  | a, b => dbl (a.toQ / b.toQ)

/-- C subtraction under the usual arithmetic conversions. -/
def sub : CVal → CVal → CVal
  | int a, int b => int (a - b)
  | a, b => dbl (a.toQ - b.toQ)

end CVal

/-- Line 334: `total = iter / (end - start);` (`iter` is `int`, the clock
values are `double`). -/
def bench_total (iter : Int) (start end_ : ℚ) : CVal :=
  CVal.div (.int iter) (CVal.sub (.dbl end_) (.dbl start))

/-- Line 335: `bw = (1.0 * iter * data_size) / (end - start);`
(`data_size` is `size_t`). -/
def bench_bw (iter : Int) (data_size : Nat) (start end_ : ℚ) : CVal :=
  CVal.div (CVal.mul (CVal.mul (.dbl 1) (.int iter)) (.int data_size))
    (CVal.sub (.dbl end_) (.dbl start))

/-- Line 338: the latency column, `((end - start) * 1e6) / iter / 2`. -/
def bench_latency (iter : Int) (start end_ : ℚ) : CVal :=
  CVal.div (CVal.div (CVal.mul (CVal.sub (.dbl end_) (.dbl start)) (.dbl 1000000)) (.int iter))
    (.int 2)

/-- Line 339: the message-rate column, `total * 2`. -/
def bench_msgrate (iter : Int) (start end_ : ℚ) : CVal :=
  CVal.mul (bench_total iter start end_) (.int 2)

/-- Line 340: the bandwidth column, `bw / (1024 * 1024) * 2`. -/
def bench_bandwidth (iter : Int) (data_size : Nat) (start end_ : ℚ) : CVal :=
  CVal.mul (CVal.div (bench_bw iter data_size start end_) (CVal.mul (.int 1024) (.int 1024)))
    (.int 2)

/-! ## The driver's size sweep and stdout (lines 411-418, 337-341) -/

/-- A line written to stdout: the table header (line 412) or the result row of
one payload size (lines 337-341; the three numeric columns are the values of
`bench_latency`, `bench_msgrate`, `bench_bandwidth`). -/
inductive Line where
  | header
  | row (data_size : Nat)
  deriving DecidableEq

/-- What one returning call of `bench` writes to stdout: the `printf`s sit in
the `my_pe == 0` branch (lines 297, 337-341), the `else` branch prints
nothing. -/
def bench_print (my_pe : Nat) (data_size : Nat) : List Line :=
  if my_pe = 0 then [Line.row data_size] else []

/-- Line 412: the header is printed under `if (my_pe == 0)`. -/
def main_header (my_pe : Nat) : List Line :=
  if my_pe = 0 then [Line.header] else []

/-- The loop `for (int i = 8; i <= 1024*1024*8; i *= 2)` of line 415, started
at `i`, with a bound on the number of loop tests: the payload sizes handed to
`bench` in order, or `none` when the bound is reached before the loop exits.
(`i` never exceeds `2^24` here, so the `int` does not overflow.) -/
def sweep : Nat → Nat → Option (List Nat)
  | 0, _ => none
  | fuel + 1, i =>
    if i ≤ 1024 * 1024 * 8 then (sweep fuel (i * 2)).map (fun rest => i :: rest)
    else some []

/-- Lines 411-418 as seen on stdout of rank `my_pe`, every call of `bench`
returning: the header, then what each `bench(sdata, shared_ptr, 100, 10, i)`
prints. -/
def main_stdout (fuel : Nat) (my_pe : Nat) : Option (List Line) :=
  (sweep fuel 8).map
    (fun sizes => main_header my_pe ++ (sizes.map (bench_print my_pe)).flatten)

/-- The data rows among printed lines. -/
def dataRows (ls : List Line) : List Line :=
  ls.filter (fun l => decide (l ≠ Line.header))

/-! ## Resources: `comm_init`, `reg_buffer`, `comm_finalize` (lines 43-243) -/

/-- What the program acquires from the allocator, the transport and the
group-communication layer. -/
inductive Res where
  /-- The configuration read by `ucp_config_read`. -/
  | config
  /-- The context made by `ucp_init`. -/
  | context
  /-- The worker made by `ucp_worker_create`. -/
  | worker
  /-- The array `endpoints` (line 129). -/
  | ep_table
  /-- The endpoint `endpoints[i]` made by `ucp_ep_create`. -/
  | ep (i : Nat)
  /-- The array `worker_addresses` filled by `mpi_worker_exchange`. -/
  | addr_table
  /-- The worker-address blob `worker_addresses[i]`. -/
  | addr_blob (i : Nat)
  /-- The array `rkeys` (line 51). -/
  | rkey_table
  /-- The array `remote_addresses` (line 57). -/
  | raddr_table
  /-- The registration made by `ucp_mem_map`. -/
  | mem_reg
  /-- The array `pack` filled by `mpi_buffer_exchange`. -/
  | pack_table
  /-- The key blob `pack[i]`. -/
  | key_blob (i : Nat)
  /-- The remote key `rkeys[i]` made by `ucp_ep_rkey_unpack`. -/
  | rkey (i : Nat)
  deriving DecidableEq

/-- The resources a process holds and its process-wide variables (lines
14-19; `true` for a variable that is not `NULL`). `misuse` records a release
or a use of something that is no longer held. -/
structure World where
  held : List Res
  ucp_context : Bool
  ucp_worker : Bool
  endpoints : Bool
  rkeys : Bool
  register_buffer : Bool
  remote_addresses : Bool
  misuse : Bool
  deriving DecidableEq

/-- The process before `comm_init`: nothing held, every variable `NULL`. -/
def World.fresh : World :=
  { held := [], ucp_context := false, ucp_worker := false, endpoints := false,
    rkeys := false, register_buffer := false, remote_addresses := false, misuse := false }

/-- A resource is acquired. -/
def World.acquire (w : World) (r : Res) : World :=
  { w with held := w.held ++ [r] }

/-- A resource is released; releasing what is not held is a misuse. -/
def World.release (w : World) (r : Res) : World :=
  if r ∈ w.held then { w with held := w.held.erase r } else { w with misuse := true }

/-- The call `free(v)` on a pointer variable: nothing happens on `NULL`. -/
def World.free (w : World) (nonnull : Bool) (r : Res) : World :=
  if nonnull then w.release r else w

/-- The status constants of `errors.h`, which is not among the sources. -/
structure Codes where
  OK : Int
  ERR_NO_MEMORY : Int

/-- Outcomes of the external calls of `comm_init`. -/
structure InitEnv where
  /-- The call `ucp_config_read` returns `UCS_OK`. -/
  config_read : Bool
  /-- The call `ucp_init` returns `UCS_OK`. -/
  init : Bool
  /-- The call `ucp_worker_create` returns `UCS_OK`. -/
  worker_create : Bool
  /-- The `malloc` of line 129 succeeds. -/
  malloc_endpoints : Bool
  /-- The call `mpi_worker_exchange` returns `OK`. -/
  worker_exchange : Bool
  /-- The call `ucp_ep_create` for peer `i` returns `UCS_OK`. -/
  ep_create : Nat → Bool

/-- Modelled from the spec: `mpi_worker_exchange` of the group-communication
layer (`comm-mpi`, not among the sources), an all-gather after which the
process holds one worker-address blob per peer, in an array indexed by rank. -/
def mpi_worker_exchange (size : Nat) (w : World) : World :=
  (List.range size).foldl (fun v i => v.acquire (Res.addr_blob i)) (w.acquire Res.addr_table)

/-- The loop of lines 140-151 with `n` peers left, at index `i`: `false` when
`ucp_ep_create` failed (then line 147 has run). -/
def create_loop (env : InitEnv) : Nat → Nat → World → Bool × World
  | 0, _, w => (true, w)
  | n + 1, i, w =>
    if env.ep_create i then
      create_loop env n (i + 1) ((w.acquire (Res.ep i)).release (Res.addr_blob i))
    else (false, w.free w.endpoints Res.ep_table)

/-- The function `create_ucp_endpoints` (lines 122-155). -/
def create_ucp_endpoints (k : Codes) (size : Nat) (env : InitEnv) (w : World) : Int × World :=
  if env.malloc_endpoints then
    let w1 := ({ w with endpoints := true }).acquire Res.ep_table
    if env.worker_exchange then
      let r := create_loop env size 0 (mpi_worker_exchange size w1)
      if r.1 then (k.OK, r.2.release Res.addr_table) else (-1, r.2)
    else (-1, w1.free w1.endpoints Res.ep_table)
  else (k.ERR_NO_MEMORY, { w with endpoints := false })

/-- The function `comm_init` (lines 157-198). -/
def comm_init (k : Codes) (size : Nat) (env : InitEnv) (w : World) : Int × World :=
  if env.config_read then
    let w1 := w.acquire Res.config
    if env.init then
      let w2 := (({ w1 with ucp_context := true }).acquire Res.context).release Res.config
      if env.worker_create then
        let w3 := ({ w2 with ucp_worker := true }).acquire Res.worker
        let r := create_ucp_endpoints k size env w3
        (if r.1 ≠ k.OK then -1 else 0, r.2)
      else (-1, w2)
    else (-1, w1)
  else (-1, w)

/-- Outcomes of the external calls of `reg_buffer`. -/
structure RegEnv where
  /-- The `malloc` of line 51 succeeds. -/
  malloc_rkeys : Bool
  /-- The `malloc` of line 57 succeeds. -/
  malloc_raddrs : Bool
  /-- The call `ucp_mem_map` returns `UCS_OK`. -/
  mem_map : Bool
  /-- The call `mpi_buffer_exchange` returns `OK`. -/
  buffer_exchange : Bool
  /-- What a failing `mpi_buffer_exchange` returns. -/
  exchange_error : Int
  /-- The call `ucp_ep_rkey_unpack` for peer `i` returns `UCS_OK`. -/
  rkey_unpack : Nat → Bool

/-- Modelled from the spec: `mpi_buffer_exchange` of the group-communication
layer (`comm-mpi`, not among the sources), an all-gather after which the
process holds one key blob per peer, in the array `pack`. -/
def mpi_buffer_exchange (size : Nat) (w : World) : World :=
  (List.range size).foldl (fun v i => v.acquire (Res.key_blob i)) (w.acquire Res.pack_table)

/-- Lines 108-115: label `fail`. -/
def reg_fail (error : Int) (w : World) : Int × World :=
  let w1 := w.free w.rkeys Res.rkey_table
  (error, { w1 with register_buffer := false, rkeys := false, remote_addresses := false })

/-- Lines 106-107: label `fail_endpoints`, falling through to `fail`. -/
def reg_fail_endpoints (error : Int) (w : World) : Int × World :=
  reg_fail error (w.free w.endpoints Res.ep_table)

/-- Lines 104-105: label `fail_full`, falling through to `fail_endpoints`. -/
def reg_fail_full (error : Int) (w : World) : Int × World :=
  reg_fail_endpoints error (w.free w.remote_addresses Res.raddr_table)

/-- The loop of lines 84-97 with `n` peers left, at index `i`: `false` when
`ucp_ep_rkey_unpack` failed. -/
def unpack_loop (env : RegEnv) : Nat → Nat → World → Bool × World
  | 0, _, w => (true, w)
  | n + 1, i, w =>
    if env.rkey_unpack i then
      unpack_loop env n (i + 1) ((w.acquire (Res.rkey i)).release (Res.key_blob i))
    else (false, w)

/-- The function `reg_buffer` (lines 43-116). -/
def reg_buffer (k : Codes) (size : Nat) (env : RegEnv) (w : World) : Int × World :=
  if env.malloc_rkeys then
    let w1 := ({ w with rkeys := true }).acquire Res.rkey_table
    if env.malloc_raddrs then
      let w2 := ({ w1 with remote_addresses := true }).acquire Res.raddr_table
      if env.mem_map then
        let w3 := ({ w2 with register_buffer := true }).acquire Res.mem_reg
        if env.buffer_exchange then
          let r := unpack_loop env size 0 (mpi_buffer_exchange size w3)
          if r.1 then (k.OK, r.2.release Res.pack_table) else reg_fail_full (-1) r.2
        else reg_fail_full env.exchange_error w3
      else reg_fail_full (-1) w2
    else reg_fail_endpoints k.ERR_NO_MEMORY { w1 with remote_addresses := false }
  else reg_fail k.ERR_NO_MEMORY { w with rkeys := false }

/-- The loop of lines 226-234 with `n` peers left, at index `i`. Reading an
entry of an array that is `NULL` or has been freed is a misuse. -/
def finalize_loop : Nat → Nat → World → World
  | 0, _, w => w
  | n + 1, i, w =>
    let w1 :=
      if w.rkeys ∧ Res.rkey_table ∈ w.held then
        (if Res.rkey i ∈ w.held then w.release (Res.rkey i) else w)
      else { w with misuse := true }
    let w2 :=
      if w1.endpoints ∧ Res.ep_table ∈ w1.held then
        (if Res.ep i ∈ w1.held then w1.release (Res.ep i) else w1)
      else { w1 with misuse := true }
    finalize_loop n (i + 1) w2

/-- The function `comm_finalize` (lines 208-243), its flush completing. -/
def comm_finalize (size : Nat) (w : World) : World :=
  let w1 := finalize_loop size 0 w
  let w2 := w1.free w1.remote_addresses Res.raddr_table
  let w3 := w2.free w2.endpoints Res.ep_table
  ((w3.release Res.mem_reg).release Res.worker).release Res.context

/-- Every external call of `comm_init` succeeds. -/
def InitEnv.all_ok : InitEnv :=
  { config_read := true, init := true, worker_create := true, malloc_endpoints := true,
    worker_exchange := true, ep_create := fun _ => true }

/-- Every external call of `reg_buffer` succeeds. -/
def RegEnv.all_ok : RegEnv :=
  { malloc_rkeys := true, malloc_raddrs := true, mem_map := true, buffer_exchange := true,
    exchange_error := -1, rkey_unpack := fun _ => true }

/-- The process after a successful `comm_init` with two peers. -/
def World.booted (k : Codes) : World :=
  (comm_init k 2 InitEnv.all_ok World.fresh).2

/-! ## The warmup and ping-pong protocol of `bench` (lines 250-379) -/

/-- A `ucs_status_ptr_t` result of `ucp_put_nbx` or `ucp_worker_flush_nbx`:
`UCS_OK`, a request handle (whose status reads `UCS_INPROGRESS` on the first
`pending` checks and something else afterwards), or an error pointer. -/
inductive StatusPtr where
  | ok
  | req (pending : Nat)
  | err
  deriving DecidableEq

/-- Calls into the transport library (and `abort`) made by `bench`. -/
inductive Call where
  | put_nbx (ep : Nat) (len : Nat) (remote_addr : Nat)
  | flush_nbx
  | request_check_status
  | worker_progress
  | request_free
  | abort
  deriving DecidableEq

/-- Lines 278-280 (and 301-303, 361-363): what follows a `ucp_put_nbx`,
`if (UCS_PTR_IS_PTR(ucp_status)) { ucp_request_free(ucp_status); }`. -/
def after_put : StatusPtr → List Call
  | .req _ => [Call.request_free]
  | _ => []

/-- The loop `while (UCS_INPROGRESS == ucp_request_check_status(ucp_status))
{ ucp_worker_progress(ucp_worker); }` on a request with `pending` in-progress
readings left. -/
def poll_request : Nat → List Call
  | 0 => [Call.request_check_status]
  | pending + 1 => Call.request_check_status :: Call.worker_progress :: poll_request pending

/-- Lines 282-291 (and 305-315, 319-329, 348-358, 365-375): what follows a
`ucp_worker_flush_nbx`. -/
def after_flush : StatusPtr → List Call
  | .ok => []
  | .err => [Call.abort]
  | .req pending => poll_request pending ++ [Call.request_free]

/-- The bytes of a buffer, by offset from its start. -/
abbrev Mem := Nat → Nat

/-- Arithmetic in `size_t` / `uint64_t`. -/
def wrap64 (n : Nat) : Nat := n % 2 ^ 64

/-- The offset `i * data_size`, computed in `size_t`. -/
def slot_off (i data_size : Nat) : Nat := wrap64 (i * data_size)

/-- The target address `remote_addresses[p] + i * data_size` (`uint64_t`). -/
def remote_addr (base i data_size : Nat) : Nat := wrap64 (base + slot_off i data_size)

/-- The test `memcmp(&buf[off], ref, n) == 0` against a reference of `n`
bytes of value `v` (`zero_mem` or `one_mem`, lines 266-267). -/
def memcmp_eq (buf : Mem) (off n v : Nat) : Bool :=
  (List.range n).all (fun k => buf (off + k) == v)

/-- A remote write of `len` bytes of `src` from `srcOff` on, landing at offset
`off` of the target region. -/
def rma_write (dst : Mem) (off len : Nat) (src : Mem) (srcOff : Nat) : Mem :=
  fun k => if off ≤ k ∧ k < off + len then src (srcOff + (k - off)) else dst k

/-- The two processes. -/
inductive Rank where
  | r0
  | r1
  deriving DecidableEq

/-- The other process: rank 0 addresses `endpoints[1]`, the `else` branch
addresses `endpoints[0]`. -/
def Rank.peer : Rank → Rank
  | .r0 => .r1
  | .r1 => .r0

/-- The value of `my_pe`. -/
def Rank.my_pe : Rank → Nat
  | .r0 => 0
  | .r1 => 1

/-- The arguments of one `bench` call and the memory it runs in. -/
structure Cfg where
  /-- Argument `iter`. -/
  iter : Nat
  /-- Argument `warmup`. -/
  warmup : Nat
  /-- Argument `data_size`. -/
  data_size : Nat
  /-- Length in bytes of the registered region `mybuff` of each process. -/
  blen : Nat
  /-- Length in bytes of `sdata` of each process. -/
  slen : Nat
  /-- The entry `remote_addresses[r]`: virtual address of the region of `r`. -/
  base : Rank → Nat
  /-- Contents of `sdata` of each process (never written by `bench`). -/
  sdata : Rank → Mem

/-- A memory access of `bench`: a read of the local `sdata`, a read of the
local `mybuff`, or a remote write at an absolute address of the peer. -/
inductive Access where
  | sdata (off len : Nat)
  | mybuff (off len : Nat)
  | remote (addr len : Nat)
  deriving DecidableEq

/-- The access lies in the first `sN` bytes of `sdata`, the first `bN` bytes of
the local `mybuff`, or the first `bN` bytes of the peer region. -/
def Access.fits (c : Cfg) (me : Rank) (sN bN : Nat) : Access → Bool
  | .sdata off len => decide (off + len ≤ sN)
  | .mybuff off len => decide (off + len ≤ bN)
  | .remote addr len => decide (c.base me.peer ≤ addr ∧ addr + len ≤ c.base me.peer + bN)

/-- Control points of `bench`. `warm i`: head of the warmup loop (line 272);
`bar1`: inside the barrier of line 294; `put i`: rank 0 at the head of its
measurement loop (line 299), rank 1 before its put (line 360); `poll i`:
rank 0 at the test of its poll loop (line 316), rank 1 at the head of its
measurement loop (line 344) and the test of line 345; `bar2`: inside the
barrier of line 378; `ret`: returned; `aborted`: after `abort()` or a failed
`assert`; `fault`: after an access outside a buffer. -/
inductive Pc where
  | entry
  | warm (i : Nat)
  | bar1
  | put (i : Nat)
  | poll (i : Nat)
  | bar2
  | ret
  | aborted
  | fault
  deriving DecidableEq

/-- One process inside `bench`. `sent` is a history variable: the measurement
slots whose put this process has flushed to completion. -/
structure Proc where
  pc : Pc
  mybuff : Mem
  calls : List Call
  sent : List Nat
  out : List Line

/-- The pair of processes. -/
structure Sys where
  p0 : Proc
  p1 : Proc

/-- Results the transport returns to the calls of one step. -/
structure Oracle where
  put : StatusPtr
  flush : StatusPtr

/-- The put of one loop iteration, the handling of its result, the flush and
the handling of its result (lines 274-291, 300-315, 360-375). A flush that
errs aborts. A put that was accepted and then flushed to completion has
deposited its bytes in the region of the peer. -/
def put_flush (c : Cfg) (me : Rank) (o : Oracle) (src : Mem) (srcOff : Nat) (addr : Nat)
    (slot : Option Nat) (next : Pc) (self peer : Proc) : Proc × Proc :=
  let calls := self.calls
    ++ (Call.put_nbx me.peer.my_pe c.data_size addr :: after_put o.put)
    ++ (Call.flush_nbx :: after_flush o.flush)
  if o.flush = StatusPtr.err then
    ({ self with pc := Pc.aborted, calls := calls }, peer)
  else if o.put = StatusPtr.err then
    ({ self with pc := next, calls := calls }, peer)
  else
    ({ self with
        pc := next, calls := calls,
        sent := match slot with
          | some i => self.sent ++ [i]
          | none => self.sent },
     { peer with
        mybuff := rma_write peer.mybuff (addr - c.base me.peer) c.data_size src srcOff })

/-- One test of a poll loop (lines 316-330, 345-359): leave the loop when the
slot equals `one_mem`, else flush, handle the result and test again. -/
def poll_slot (c : Cfg) (o : Oracle) (i : Nat) (next : Pc) (self : Proc) : Proc :=
  if memcmp_eq self.mybuff (slot_off i c.data_size) c.data_size 1 then
    { self with pc := next }
  else
    { self with
        pc := if o.flush = StatusPtr.err then Pc.aborted else self.pc,
        calls := self.calls ++ (Call.flush_nbx :: after_flush o.flush) }

/-- Where a process resumes after the barrier of line 294. -/
def Rank.start : Rank → Pc
  | .r0 => Pc.put 0
  | .r1 => Pc.poll 0

/-- The accesses made by the next step of process `me` at control point `pc`. -/
def accesses (c : Cfg) (me : Rank) : Pc → List Access
  | .entry => [Access.mybuff 0 c.data_size]
  | .warm i =>
    if i < c.warmup then
      [Access.remote (remote_addr (c.base me.peer) i c.data_size) c.data_size]
    else []
  | .put i =>
    match me with
    | .r0 =>
      if i < c.iter then
        [Access.sdata (slot_off i c.data_size) c.data_size,
         Access.remote (remote_addr (c.base me.peer) i c.data_size) c.data_size]
      else []
    | .r1 =>
      [Access.sdata (slot_off i c.data_size) c.data_size,
       Access.remote (remote_addr (c.base me.peer) i c.data_size) c.data_size]
  | .poll i =>
    match me with
    | .r0 => [Access.mybuff (slot_off i c.data_size) c.data_size]
    | .r1 => if i < c.iter then [Access.mybuff (slot_off i c.data_size) c.data_size] else []
  | _ => []

/-- One step of process `me` whose accesses are all inside their buffers. -/
def exec (c : Cfg) (me : Rank) (o : Oracle) (self peer : Proc) : Proc × Proc :=
  match self.pc with
  | .entry =>
    -- line 269: assert(memcmp(mybuff, zero_mem, data_size) == 0)
    if memcmp_eq self.mybuff 0 c.data_size 0 then ({ self with pc := Pc.warm 0 }, peer)
    else ({ self with pc := Pc.aborted, calls := self.calls ++ [Call.abort] }, peer)
  | .warm i =>
    if i < c.warmup then
      put_flush c me o (fun _ => 0) 0 (remote_addr (c.base me.peer) i c.data_size)
        none (Pc.warm (i + 1)) self peer
    else ({ self with pc := Pc.bar1 }, peer)
  | .bar1 =>
    if peer.pc = Pc.bar1 then
      ({ self with pc := me.start }, { peer with pc := me.peer.start })
    else (self, peer)
  | .put i =>
    match me with
    | .r0 =>
      if i < c.iter then
        put_flush c me o (c.sdata me) (slot_off i c.data_size)
          (remote_addr (c.base me.peer) i c.data_size) (some i) (Pc.poll i) self peer
      else
        -- line 332: end = MPI_Wtime(); lines 337-341: the result row
        ({ self with pc := Pc.bar2, out := self.out ++ bench_print me.my_pe c.data_size }, peer)
    | .r1 =>
      put_flush c me o (c.sdata me) (slot_off i c.data_size)
        (remote_addr (c.base me.peer) i c.data_size) (some i) (Pc.poll (i + 1)) self peer
  | .poll i =>
    match me with
    | .r0 => (poll_slot c o i (Pc.put (i + 1)) self, peer)
    | .r1 =>
      if i < c.iter then (poll_slot c o i (Pc.put i) self, peer)
      else ({ self with pc := Pc.bar2 }, peer)
  | .bar2 =>
    if peer.pc = Pc.bar2 then
      ({ self with pc := Pc.ret }, { peer with pc := Pc.ret })
    else (self, peer)
  | _ => (self, peer)

/-- One step of process `me`: an access outside its buffer is a fault. -/
def step_as (c : Cfg) (me : Rank) (o : Oracle) (self peer : Proc) : Proc × Proc :=
  if (accesses c me self.pc).all (Access.fits c me c.slen c.blen) then exec c me o self peer
  else ({ self with pc := Pc.fault }, peer)

/-- One step of the pair: process `e.1` moves, the transport answering `e.2`. -/
def step (c : Cfg) (s : Sys) (e : Rank × Oracle) : Sys :=
  match e.1 with
  | .r0 => let r := step_as c Rank.r0 e.2 s.p0 s.p1; { p0 := r.1, p1 := r.2 }
  | .r1 => let r := step_as c Rank.r1 e.2 s.p1 s.p0; { p0 := r.2, p1 := r.1 }

/-- A run under a schedule. -/
def run (c : Cfg) (sched : List (Rank × Oracle)) (s : Sys) : Sys :=
  sched.foldl (step c) s

/-- Both processes entering `bench` with the given contents of `mybuff`. -/
def init (m0 m1 : Mem) : Sys :=
  { p0 := { pc := Pc.entry, mybuff := m0, calls := [], sent := [], out := [] },
    p1 := { pc := Pc.entry, mybuff := m1, calls := [], sent := [], out := [] } }

/-- The zeroed buffer (`memset(mybuff, 0, HUGEPAGE)`, line 416). -/
def zeroed : Mem := fun _ => 0

/-- The process of a rank. -/
def Sys.proc (s : Sys) : Rank → Proc
  | .r0 => s.p0
  | .r1 => s.p1

/-- Slot `i` of a buffer, `[i * data_size, (i + 1) * data_size)`, is all `0x01`. -/
def slot_ones (c : Cfg) (m : Mem) (i : Nat) : Prop :=
  ∀ k, k < c.data_size → m (i * c.data_size + k) = 1

/-- The transport accepts every put and completes every flush at once. -/
def calm : Oracle := { put := StatusPtr.ok, flush := StatusPtr.ok }

/-- Control points before the barrier of line 294 is passed. -/
def Pc.phase1 : Pc → Prop
  | .entry => True
  | .warm _ => True
  | .bar1 => True
  | _ => False

/-- Control points after the barrier of line 294 is passed. -/
def Pc.phase2 : Pc → Prop
  | .put _ => True
  | .poll _ => True
  | .bar2 => True
  | .ret => True
  | _ => False

/-- The number of leading slots of its own `mybuff` a process has seen equal to
`one_mem` when it stands at a control point. -/
def seen (c : Cfg) (me : Rank) : Pc → Nat
  | .put i =>
    match me with
    | .r0 => i
    | .r1 => i + 1
  | .poll i => i
  | .bar2 => c.iter
  | .ret => c.iter
  | _ => 0

/-- The loop counter at a control point is within the bound of its loop. -/
def idx_ok (c : Cfg) (me : Rank) : Pc → Prop
  | .warm i => i ≤ c.warmup
  | .put i =>
    match me with
    | .r0 => i ≤ c.iter
    | .r1 => i < c.iter
  | .poll i =>
    match me with
    | .r0 => i < c.iter
    | .r1 => i ≤ c.iter
  | _ => True

/-- The invariant of the protocol, seen from process `me` (`self`) towards its
peer. -/
structure RoleInv (c : Cfg) (me : Rank) (p q : Proc) : Prop where
  /-- Loop counters are within bounds. -/
  idx : idx_ok c me p.pc
  /-- Every slot seen all-ones is still all-ones. -/
  ones : ∀ j, j < seen c me p.pc → slot_ones c p.mybuff j
  /-- The slots seen lie inside the buffer. -/
  room : seen c me p.pc * c.data_size ≤ c.blen
  /-- A non-zero byte of `mybuff` lies in a slot whose measurement put the peer
  has flushed to completion. -/
  origin : ∀ k, p.mybuff k ≠ 0 →
    ∃ i, i ∈ q.sent ∧ i * c.data_size ≤ k ∧ k < (i + 1) * c.data_size
  /-- Delivered measurement puts are those of slots below `iter`, inside the
  region. -/
  sent_ok : ∀ i, i ∈ p.sent → i < c.iter ∧ (i + 1) * c.data_size ≤ c.blen
  /-- Nobody is past the first barrier while the other is before it. -/
  phase : p.pc.phase2 → ¬ q.pc.phase1

/-- The invariant of the pair. -/
def Inv (c : Cfg) (s : Sys) : Prop :=
  RoleInv c Rank.r0 s.p0 s.p1 ∧ RoleInv c Rank.r1 s.p1 s.p0

/-- Well-formed memory: each registered region lies inside the 64-bit address
space, and `sdata` holds the sentinel byte 1 throughout (`memset(sdata, 1,
HUGEPAGE)`, line 400). -/
structure Cfg.WF (c : Cfg) : Prop where
  addr : ∀ r, c.base r + c.blen < 2 ^ 64
  sdata_ones : ∀ r k, k < c.slen → c.sdata r k = 1

/-- The expected contents of `mybuff` when `bench` returns: the `iter` slots
all `0x01`, every later byte zero. -/
def final_buf (c : Cfg) : Mem :=
  fun k => if k < c.iter * c.data_size then 1 else 0

/-- The same call of `bench` with another warmup count. -/
def Cfg.with_warmup (c : Cfg) (w : Nat) : Cfg := { c with warmup := w }

/-- Seed scenario S1: `iter = 1`, `warmup = 0`, `size = 8`, buffers of 8 bytes. -/
def seed_s1 : Cfg :=
  { iter := 1, warmup := 0, data_size := 8, blen := 8, slen := 8,
    base := fun _ => 4096, sdata := fun _ _ => 1 }

/-- A schedule of S1 on a transport that completes everything at once. -/
def seed_s1_sched : List (Rank × Oracle) :=
  [(Rank.r0, calm), (Rank.r1, calm), (Rank.r0, calm), (Rank.r1, calm), (Rank.r0, calm),
   (Rank.r0, calm), (Rank.r1, calm), (Rank.r1, calm), (Rank.r0, calm), (Rank.r0, calm),
   (Rank.r1, calm), (Rank.r1, calm)]

/-- One iteration, two warmup puts, buffers of exactly `iter * size` bytes. -/
def long_warmup : Cfg :=
  { iter := 1, warmup := 2, data_size := 8, blen := 8, slen := 8,
    base := fun _ => 4096, sdata := fun _ _ => 1 }

/-- One measurement iteration on a calm transport: rank 0 puts, rank 1 sees
the slot and puts back, rank 0 sees the slot. -/
def calm_round : List (Rank × Oracle) :=
  [(Rank.r0, calm), (Rank.r1, calm), (Rank.r1, calm), (Rank.r0, calm)]

/-- A schedule on a calm transport that carries both processes from the entry
of `bench` through the warmup, the barrier and `n` measurement iterations. -/
def calm_upto (c : Cfg) (n : Nat) : List (Rank × Oracle) :=
  [(Rank.r0, calm), (Rank.r1, calm)]
    ++ (List.replicate (c.warmup + 1) (Rank.r0, calm)
    ++ (List.replicate (c.warmup + 1) (Rank.r1, calm)
    ++ ((Rank.r0, calm) :: (List.replicate n calm_round).flatten)))

/-- A schedule on a calm transport that carries both processes from the entry
of `bench` to its return. -/
def calm_sched (c : Cfg) : List (Rank × Oracle) :=
  calm_upto c c.iter ++ [(Rank.r0, calm), (Rank.r1, calm), (Rank.r0, calm)]

/-- Seed scenario S4: `iter = 100`, `warmup = 10`, `size = 64`. -/
def seed_s4 : Cfg :=
  { iter := 100, warmup := 10, data_size := 64, blen := 6400, slen := 6400,
    base := fun _ => 4096, sdata := fun _ _ => 1 }

end Ucx

namespace Ucx

/-! ## Theorems: report arithmetic -/

/-- C1: for every `iter > 0`, every payload size and every elapsed time
`end - start > 0`, the three columns `bench` computes are `double` values (no
integer division or multiplication occurs in them) equal, in exact rational
arithmetic, to `t * 10^6 / iter / 2`, `iter / t * 2` and
`iter * size / t / 1048576 * 2`. -/
theorem bench_metrics_exact (iter : Int) (data_size : Nat) (start end_ : ℚ)
    (hiter : 0 < iter) (ht : 0 < end_ - start) :
    bench_latency iter start end_
        = CVal.dbl ((end_ - start) * 10 ^ 6 / (iter : ℚ) / 2)
      ∧ bench_msgrate iter start end_
        = CVal.dbl ((iter : ℚ) / (end_ - start) * 2)
      ∧ bench_bandwidth iter data_size start end_
        = CVal.dbl ((iter : ℚ) * (data_size : ℚ) / (end_ - start) / 1048576 * 2) := by
  have _h1 := hiter
  have _h2 := ht
  refine ⟨?_, ?_, ?_⟩
  · simp only [bench_latency, CVal.div, CVal.mul, CVal.sub, CVal.toQ]
    norm_num
  · simp only [bench_msgrate, bench_total, CVal.div, CVal.mul, CVal.sub, CVal.toQ]
    norm_num
  · simp only [bench_bandwidth, bench_bw, CVal.div, CVal.mul, CVal.sub, CVal.toQ]
    norm_num

/-- Witness of C1 at `iter = 100`, `size = 8`, `start = 0`, `end = 1/1000`. -/
theorem bench_metrics_exact_witness :
    bench_latency 100 0 (1 / 1000) = CVal.dbl (((1 : ℚ) / 1000 - 0) * 10 ^ 6 / ((100 : Int) : ℚ) / 2)
      ∧ bench_msgrate 100 0 (1 / 1000) = CVal.dbl (((100 : Int) : ℚ) / ((1 : ℚ) / 1000 - 0) * 2)
      ∧ bench_bandwidth 100 8 0 (1 / 1000)
        = CVal.dbl (((100 : Int) : ℚ) * ((8 : Nat) : ℚ) / ((1 : ℚ) / 1000 - 0) / 1048576 * 2) :=
  bench_metrics_exact 100 8 0 (1 / 1000) (by norm_num) (by norm_num)

/-- C2, as stated, fails: with `iter = 1` and one second elapsed the latency
column is 500000 and the message rate is 2, so `LatencyUs * 2 * MsgRate` is
2000000, not 1000000. -/
theorem metric_identity_counterexample :
    ¬ ((bench_latency 1 0 1).toQ * 2 * (bench_msgrate 1 0 1).toQ = 10 ^ 6) := by
  simp only [bench_latency, bench_msgrate, bench_total, CVal.div, CVal.mul, CVal.sub, CVal.toQ]
  norm_num

/-- C2, amended: for every `iter > 0` and elapsed time `t > 0` the latency and
message rate of one row satisfy `LatencyUs * 2 * MsgRate = 2 * 10^6`
(equivalently `LatencyUs * MsgRate = 10^6`). -/
theorem metric_identity (iter : Int) (start end_ : ℚ)
    (hiter : 0 < iter) (ht : 0 < end_ - start) :
    (bench_latency iter start end_).toQ * 2 * (bench_msgrate iter start end_).toQ
      = 2 * 10 ^ 6 := by
  have hi : (iter : ℚ) ≠ 0 := by
    have : (0 : ℚ) < (iter : ℚ) := by exact_mod_cast hiter
    exact ne_of_gt this
  have ht0 : end_ - start ≠ 0 := ne_of_gt ht
  simp only [bench_latency, bench_msgrate, bench_total, CVal.div, CVal.mul, CVal.sub, CVal.toQ]
  push_cast
  field_simp
  ring

/-- Witness of the amended C2 at `iter = 100`, `start = 0`, `end = 1/1000`. -/
theorem metric_identity_witness :
    (0 : Int) < 100 ∧ (0 : ℚ) < 1 / 1000 - 0
      ∧ (bench_latency 100 0 (1 / 1000)).toQ * 2 * (bench_msgrate 100 0 (1 / 1000)).toQ
        = 2 * 10 ^ 6 :=
  ⟨by norm_num, by norm_num, metric_identity 100 0 (1 / 1000) (by norm_num) (by norm_num)⟩

end Ucx

namespace Ucx

/-! ## Theorems: the ping-pong protocol -/

theorem wrap64_eq {n : Nat} (h : n < 2 ^ 64) : wrap64 n = n := by
  unfold wrap64
  exact Nat.mod_eq_of_lt h

theorem slot_off_eq {i n : Nat} (h : i * n < 2 ^ 64) : slot_off i n = i * n := by
  unfold slot_off
  exact wrap64_eq h

theorem remote_addr_eq {b i n : Nat} (h : b + i * n < 2 ^ 64) :
    remote_addr b i n = b + i * n := by
  unfold remote_addr
  have h1 : i * n < 2 ^ 64 := by omega
  rw [slot_off_eq h1]
  exact wrap64_eq h

theorem memcmp_eq_iff (buf : Mem) (off n v : Nat) :
    memcmp_eq buf off n v = true ↔ ∀ k, k < n → buf (off + k) = v := by
  unfold memcmp_eq
  simp [List.all_eq_true]

theorem seen_pos_phase2 {c : Cfg} {me : Rank} {pc : Pc} (h : 0 < seen c me pc) : pc.phase2 := by
  cases pc <;> simp_all [seen, Pc.phase2]

theorem succ_mul_le_of_lt {i n s : Nat} (h : i < n) : (i + 1) * s ≤ n * s :=
  Nat.mul_le_mul_right s h

/-- A move of `self` that leaves both buffers and both histories alone. -/
theorem inv_self_move {c : Cfg} {me : Rank} {self peer : Proc}
    (h1 : RoleInv c me self peer) (h2 : RoleInv c me.peer peer self) (self1 : Proc)
    (hm : self1.mybuff = self.mybuff) (hs : self1.sent = self.sent)
    (hidx : idx_ok c me self1.pc)
    (hones : ∀ j, seen c me self.pc ≤ j → j < seen c me self1.pc → slot_ones c self.mybuff j)
    (hroom : seen c me self1.pc * c.data_size ≤ c.blen)
    (hp2 : self1.pc.phase2 → self.pc.phase2) (hp1 : self1.pc.phase1 → self.pc.phase1) :
    RoleInv c me self1 peer ∧ RoleInv c me.peer peer self1 := by
  refine ⟨⟨hidx, ?_, hroom, ?_, ?_, ?_⟩, ⟨h2.idx, h2.ones, h2.room, ?_, h2.sent_ok, ?_⟩⟩
  · intro j hj
    rw [hm]
    by_cases hlt : j < seen c me self.pc
    · exact h1.ones j hlt
    · exact hones j (Nat.le_of_not_lt hlt) hj
  · intro k hk
    rw [hm] at hk
    exact h1.origin k hk
  · intro i hi
    rw [hs] at hi
    exact h1.sent_ok i hi
  · intro hp
    exact h1.phase (hp2 hp)
  · intro k hk
    rw [hs]
    exact h2.origin k hk
  · intro hp hq
    exact h2.phase hp (hp1 hq)

/-- A move of `p` that delivers bytes into the buffer of `q`. -/
theorem inv_deliver {c : Cfg} {me : Rank} {p q : Proc}
    (h1 : RoleInv c me p q) (h2 : RoleInv c me.peer q p) (p1 q1 : Proc)
    (hm : p1.mybuff = p.mybuff) (hqpc : q1.pc = q.pc) (hqs : q1.sent = q.sent)
    (hsub : ∀ i, i ∈ p.sent → i ∈ p1.sent)
    (hnew : ∀ i, i ∈ p1.sent → i ∈ p.sent ∨ (i < c.iter ∧ (i + 1) * c.data_size ≤ c.blen))
    (hidx : idx_ok c me p1.pc) (hseen : seen c me p1.pc ≤ seen c me p.pc)
    (hp2 : p1.pc.phase2 → p.pc.phase2) (hp1 : p1.pc.phase1 → p.pc.phase1)
    (hbuf : ∀ k, q1.mybuff k = q.mybuff k
      ∨ (q1.mybuff k = 1 ∧ ∃ i, i ∈ p1.sent ∧ i * c.data_size ≤ k ∧ k < (i + 1) * c.data_size)
      ∨ (q1.mybuff k = 0 ∧ p.pc.phase1)) :
    RoleInv c me p1 q1 ∧ RoleInv c me.peer q1 p1 := by
  refine ⟨⟨hidx, ?_, le_trans (Nat.mul_le_mul_right _ hseen) h1.room, ?_, ?_, ?_⟩,
    ⟨by rw [hqpc]; exact h2.idx, ?_, by rw [hqpc]; exact h2.room, ?_, ?_, ?_⟩⟩
  · intro j hj
    rw [hm]
    exact h1.ones j (lt_of_lt_of_le hj hseen)
  · intro k hk
    rw [hm] at hk
    rw [hqs]
    exact h1.origin k hk
  · intro i hi
    rcases hnew i hi with h | h
    · exact h1.sent_ok i h
    · exact h
  · intro hp
    rw [hqpc]
    exact h1.phase (hp2 hp)
  · intro j hj k hk
    rw [hqpc] at hj
    rcases hbuf (j * c.data_size + k) with h | h | h
    · rw [h]
      exact h2.ones j hj k hk
    · exact h.1
    · exact absurd h.2 (h2.phase (seen_pos_phase2 (Nat.lt_of_le_of_lt (Nat.zero_le j) hj)))
  · intro k hk
    rcases hbuf k with h | h | h
    · rw [h] at hk
      obtain ⟨i, hi, hb⟩ := h2.origin k hk
      exact ⟨i, hsub i hi, hb⟩
    · exact h.2
    · exact absurd h.1 hk
  · intro i hi
    rw [hqs] at hi
    exact h2.sent_ok i hi
  · intro hp hq
    rw [hqpc] at hp
    exact h2.phase hp (hp1 hq)

/-- The put-and-flush of one iteration keeps the invariant, whatever the
transport answers. -/
theorem inv_put_flush {c : Cfg} {me : Rank} {p q : Proc}
    (h1 : RoleInv c me p q) (h2 : RoleInv c me.peer q p)
    (o : Oracle) (src : Mem) (srcOff addr : Nat) (slot : Option Nat) (next : Pc)
    (hidx : idx_ok c me next) (hseen : seen c me next ≤ seen c me p.pc)
    (hp2 : next.phase2 → p.pc.phase2) (hp1 : next.phase1 → p.pc.phase1)
    (hslot : ∀ i, slot = some i → i < c.iter ∧ (i + 1) * c.data_size ≤ c.blen)
    (hw : ∀ k, addr - c.base me.peer ≤ k → k < addr - c.base me.peer + c.data_size →
      (src (srcOff + (k - (addr - c.base me.peer))) = 0 ∧ p.pc.phase1)
      ∨ (src (srcOff + (k - (addr - c.base me.peer))) = 1
          ∧ ∃ i, slot = some i ∧ i * c.data_size ≤ k ∧ k < (i + 1) * c.data_size)) :
    RoleInv c me (put_flush c me o src srcOff addr slot next p q).1
        (put_flush c me o src srcOff addr slot next p q).2
      ∧ RoleInv c me.peer (put_flush c me o src srcOff addr slot next p q).2
        (put_flush c me o src srcOff addr slot next p q).1 := by
  unfold put_flush
  by_cases hf : o.flush = StatusPtr.err
  · simp only [hf, if_true]
    refine inv_self_move h1 h2 _ rfl rfl ?_ ?_ ?_ ?_ ?_
    · simp [idx_ok]
    · intro j _ hj
      simp [seen] at hj
    · simp [seen]
    · simp [Pc.phase2]
    · simp [Pc.phase1]
  · by_cases hp : o.put = StatusPtr.err
    · simp only [hf, hp, if_true, if_false]
      refine inv_self_move h1 h2 _ rfl rfl hidx ?_ ?_ hp2 hp1
      · intro j hj hj2
        exact absurd (lt_of_lt_of_le hj2 hseen) (Nat.not_lt.mpr hj)
      · exact le_trans (Nat.mul_le_mul_right _ hseen) h1.room
    · simp only [hf, hp, if_false]
      refine inv_deliver h1 h2 _ _ rfl rfl rfl ?_ ?_ hidx hseen hp2 hp1 ?_
      · intro i hi
        cases slot <;> simp [hi]
      · intro i hi
        cases slot with
        | none => exact Or.inl hi
        | some i0 =>
          simp only [List.mem_append, List.mem_singleton] at hi
          rcases hi with hi | hi
          · exact Or.inl hi
          · subst hi
            exact Or.inr (hslot i rfl)
      · intro k
        simp only [rma_write]
        by_cases hk : addr - c.base me.peer ≤ k ∧ k < addr - c.base me.peer + c.data_size
        · rw [if_pos hk]
          rcases hw k hk.1 hk.2 with h | h
          · exact Or.inr (Or.inr h)
          · obtain ⟨hv, i, hsl, hb⟩ := h
            refine Or.inr (Or.inl ⟨hv, i, ?_, hb⟩)
            subst hsl
            simp
        · rw [if_neg hk]
          exact Or.inl rfl

theorem blen_lt (c : Cfg) (wf : c.WF) : c.blen < 2 ^ 64 := by
  have h := wf.addr Rank.r0
  omega

/-- One test of a poll loop keeps the invariant. -/
theorem inv_poll_slot {c : Cfg} (wf : c.WF) {me : Rank} {p q : Proc}
    (h1 : RoleInv c me p q) (h2 : RoleInv c me.peer q p)
    (o : Oracle) (i : Nat) (next : Pc)
    (hsee : seen c me p.pc = i) (hfit : slot_off i c.data_size + c.data_size ≤ c.blen)
    (hidx : idx_ok c me next) (hseen : seen c me next ≤ i + 1)
    (hp2 : next.phase2 → p.pc.phase2) (hp1 : next.phase1 → p.pc.phase1) :
    RoleInv c me (poll_slot c o i next p) q ∧ RoleInv c me.peer q (poll_slot c o i next p) := by
  have hroom := h1.room
  rw [hsee] at hroom
  have hb := blen_lt c wf
  have hoff : slot_off i c.data_size = i * c.data_size := slot_off_eq (by omega)
  rw [hoff] at hfit
  have hS : (i + 1) * c.data_size = i * c.data_size + c.data_size := by ring
  unfold poll_slot
  by_cases hcmp : memcmp_eq p.mybuff (slot_off i c.data_size) c.data_size 1 = true
  · rw [if_pos hcmp]
    rw [memcmp_eq_iff, hoff] at hcmp
    refine inv_self_move h1 h2 _ rfl rfl hidx ?_ ?_ hp2 hp1
    · intro j hj hj2
      have hji : j = i := by
        have : j < i + 1 := lt_of_lt_of_le hj2 hseen
        omega
      subst hji
      exact hcmp
    · calc seen c me next * c.data_size ≤ (i + 1) * c.data_size :=
            Nat.mul_le_mul_right _ hseen
        _ ≤ c.blen := by omega
  · rw [if_neg hcmp]
    by_cases hf : o.flush = StatusPtr.err
    · simp only [hf, if_true]
      refine inv_self_move h1 h2 _ rfl rfl ?_ ?_ ?_ ?_ ?_
      · simp [idx_ok]
      · intro j _ hj
        simp [seen] at hj
      · simp [seen]
      · simp [Pc.phase2]
      · simp [Pc.phase1]
    · simp only [hf, if_false]
      refine inv_self_move h1 h2 _ rfl rfl h1.idx ?_ h1.room (fun h => h) (fun h => h)
      intro j hj hj2
      exact absurd hj2 (Nat.not_lt.mpr hj)

theorem idx_ok_start (c : Cfg) (r : Rank) : idx_ok c r r.start := by
  cases r <;> simp [Rank.start, idx_ok]

theorem seen_start (c : Cfg) (r : Rank) : seen c r r.start = 0 := by
  cases r <;> simp [Rank.start, seen]

theorem not_phase1_start (r : Rank) : ¬ r.start.phase1 := by
  cases r <;> simp [Rank.start, Pc.phase1]

/-- Passing the barrier of line 294 keeps the invariant. -/
theorem inv_barrier1 {c : Cfg} {me : Rank} {p q : Proc}
    (h1 : RoleInv c me p q) (h2 : RoleInv c me.peer q p) :
    RoleInv c me { p with pc := me.start } { q with pc := me.peer.start }
      ∧ RoleInv c me.peer { q with pc := me.peer.start } { p with pc := me.start } := by
  refine ⟨⟨idx_ok_start c me, ?_, ?_, h1.origin, h1.sent_ok, ?_⟩,
    ⟨idx_ok_start c me.peer, ?_, ?_, h2.origin, h2.sent_ok, ?_⟩⟩
  · intro j hj
    simp [seen_start] at hj
  · simp [seen_start]
  · intro _
    exact not_phase1_start me.peer
  · intro j hj
    simp [seen_start] at hj
  · simp [seen_start]
  · intro _
    exact not_phase1_start me

/-- Passing the barrier of line 378 keeps the invariant. -/
theorem inv_barrier2 {c : Cfg} {me : Rank} {p q : Proc}
    (h1 : RoleInv c me p q) (h2 : RoleInv c me.peer q p)
    (hp : p.pc = Pc.bar2) (hq : q.pc = Pc.bar2) :
    RoleInv c me { p with pc := Pc.ret } { q with pc := Pc.ret }
      ∧ RoleInv c me.peer { q with pc := Pc.ret } { p with pc := Pc.ret } := by
  have o1 := h1.ones
  have r1 := h1.room
  have o2 := h2.ones
  have r2 := h2.room
  rw [hp] at o1 r1
  rw [hq] at o2 r2
  refine ⟨⟨by simp [idx_ok], o1, r1, h1.origin, h1.sent_ok, ?_⟩,
    ⟨by simp [idx_ok], o2, r2, h2.origin, h2.sent_ok, ?_⟩⟩
  · intro _
    simp [Pc.phase1]
  · intro _
    simp [Pc.phase1]

/-- A measurement put keeps the invariant: it copies a slot of `sdata` onto the
same slot of the peer region. -/
theorem inv_meas_put {c : Cfg} (wf : c.WF) {me : Rank} {p q : Proc}
    (h1 : RoleInv c me p q) (h2 : RoleInv c me.peer q p) (o : Oracle) (i : Nat) (next : Pc)
    (hi : i < c.iter) (hroom : i * c.data_size ≤ c.blen)
    (hfs : slot_off i c.data_size + c.data_size ≤ c.slen)
    (hfr : remote_addr (c.base me.peer) i c.data_size + c.data_size ≤ c.base me.peer + c.blen)
    (hidx : idx_ok c me next) (hseen : seen c me next ≤ seen c me p.pc)
    (hp2 : next.phase2 → p.pc.phase2) (hp1 : next.phase1 → p.pc.phase1) :
    RoleInv c me
        (put_flush c me o (c.sdata me) (slot_off i c.data_size)
          (remote_addr (c.base me.peer) i c.data_size) (some i) next p q).1
        (put_flush c me o (c.sdata me) (slot_off i c.data_size)
          (remote_addr (c.base me.peer) i c.data_size) (some i) next p q).2
      ∧ RoleInv c me.peer
        (put_flush c me o (c.sdata me) (slot_off i c.data_size)
          (remote_addr (c.base me.peer) i c.data_size) (some i) next p q).2
        (put_flush c me o (c.sdata me) (slot_off i c.data_size)
          (remote_addr (c.base me.peer) i c.data_size) (some i) next p q).1 := by
  have ha := wf.addr me.peer
  have hoff : slot_off i c.data_size = i * c.data_size := slot_off_eq (by omega)
  have hra : remote_addr (c.base me.peer) i c.data_size = c.base me.peer + i * c.data_size :=
    remote_addr_eq (by omega)
  have hS : (i + 1) * c.data_size = i * c.data_size + c.data_size := by ring
  rw [hoff] at hfs
  rw [hra] at hfr
  refine inv_put_flush h1 h2 o _ _ _ _ next hidx hseen hp2 hp1 ?_ ?_
  · intro i0 h0
    cases h0
    exact ⟨hi, by omega⟩
  · intro k hk1 hk2
    rw [hra] at hk1 hk2
    rw [hra, hoff]
    have hsub : c.base me.peer + i * c.data_size - c.base me.peer = i * c.data_size := by omega
    rw [hsub] at hk1 hk2
    rw [hsub]
    refine Or.inr ⟨?_, i, rfl, hk1, by omega⟩
    apply wf.sdata_ones
    omega

/-- Every step of a process keeps the invariant. -/
theorem inv_step_as {c : Cfg} (wf : c.WF) {me : Rank} {p q : Proc}
    (h1 : RoleInv c me p q) (h2 : RoleInv c me.peer q p) (o : Oracle) :
    RoleInv c me (step_as c me o p q).1 (step_as c me o p q).2
      ∧ RoleInv c me.peer (step_as c me o p q).2 (step_as c me o p q).1 := by
  unfold step_as
  by_cases hfit : (accesses c me p.pc).all (Access.fits c me c.slen c.blen) = true
  swap
  · rw [if_neg hfit]
    refine inv_self_move h1 h2 _ rfl rfl ?_ ?_ ?_ ?_ ?_
    · simp [idx_ok]
    · intro j _ hj
      simp [seen] at hj
    · simp [seen]
    · simp [Pc.phase2]
    · simp [Pc.phase1]
  rw [if_pos hfit]
  have hb := blen_lt c wf
  have hidx := h1.idx
  have hroom := h1.room
  cases hpc : p.pc with
  | entry =>
    simp only [exec, hpc]
    split
    · refine inv_self_move h1 h2 _ rfl rfl ?_ ?_ ?_ ?_ ?_
      · simp [idx_ok]
      · intro j _ hj
        simp [seen] at hj
      · simp [seen]
      · simp [Pc.phase2]
      · simp [hpc, Pc.phase1]
    · refine inv_self_move h1 h2 _ rfl rfl ?_ ?_ ?_ ?_ ?_
      · simp [idx_ok]
      · intro j _ hj
        simp [seen] at hj
      · simp [seen]
      · simp [Pc.phase2]
      · simp [Pc.phase1]
  | warm i =>
    simp only [exec, hpc]
    split
    · rename_i hi
      refine inv_put_flush h1 h2 o _ _ _ _ _ ?_ ?_ ?_ ?_ ?_ ?_
      · simp only [idx_ok]
        omega
      · simp [seen]
      · simp [Pc.phase2]
      · simp [hpc, Pc.phase1]
      · intro i0 h0
        cases h0
      · intro k _ _
        exact Or.inl ⟨rfl, by simp [hpc, Pc.phase1]⟩
    · refine inv_self_move h1 h2 _ rfl rfl ?_ ?_ ?_ ?_ ?_
      · simp [idx_ok]
      · intro j _ hj
        simp [seen] at hj
      · simp [seen]
      · simp [Pc.phase2]
      · simp [hpc, Pc.phase1]
  | bar1 =>
    simp only [exec, hpc]
    split
    · exact inv_barrier1 h1 h2
    · exact ⟨h1, h2⟩
  | put i =>
    rw [hpc] at hidx hroom hfit
    cases me with
    | r0 =>
      simp only [exec, hpc]
      simp only [idx_ok] at hidx
      simp only [seen] at hroom
      split
      · rename_i hi
        simp [accesses, Access.fits, hi] at hfit
        refine inv_meas_put wf h1 h2 o i _ hi hroom hfit.1 hfit.2.2 ?_ ?_ ?_ ?_
        · simpa [idx_ok] using hi
        · simp [hpc, seen]
        · simp [hpc, Pc.phase2]
        · simp [Pc.phase1]
      · rename_i hi
        have hii : i = c.iter := by omega
        refine inv_self_move h1 h2 _ rfl rfl ?_ ?_ ?_ ?_ ?_
        · simp [idx_ok]
        · intro j hj hj2
          simp only [hpc, seen] at hj hj2
          omega
        · simp only [seen]
          rw [← hii]
          exact hroom
        · simp [hpc, Pc.phase2]
        · simp [Pc.phase1]
    | r1 =>
      simp only [exec, hpc]
      simp only [idx_ok] at hidx
      simp only [seen] at hroom
      simp [accesses, Access.fits] at hfit
      have hS : (i + 1) * c.data_size = i * c.data_size + c.data_size := by ring
      refine inv_meas_put wf h1 h2 o i _ hidx (by omega) hfit.1 hfit.2.2 ?_ ?_ ?_ ?_
      · simp only [idx_ok]
        omega
      · simp [hpc, seen]
      · simp [hpc, Pc.phase2]
      · simp [Pc.phase1]
  | poll i =>
    rw [hpc] at hidx hroom hfit
    cases me with
    | r0 =>
      simp only [exec, hpc]
      simp only [idx_ok] at hidx
      simp [accesses, Access.fits] at hfit
      refine inv_poll_slot wf h1 h2 o i _ (by simp [hpc, seen]) hfit ?_ ?_ ?_ ?_
      · simp only [idx_ok]
        omega
      · simp [seen]
      · simp [hpc, Pc.phase2]
      · simp [Pc.phase1]
    | r1 =>
      simp only [exec, hpc]
      simp only [idx_ok] at hidx
      simp only [seen] at hroom
      split
      · rename_i hi
        simp [accesses, Access.fits, hi] at hfit
        refine inv_poll_slot wf h1 h2 o i _ (by simp [hpc, seen]) hfit ?_ ?_ ?_ ?_
        · simpa [idx_ok] using hi
        · simp [seen]
        · simp [hpc, Pc.phase2]
        · simp [Pc.phase1]
      · rename_i hi
        have hii : i = c.iter := by omega
        refine inv_self_move h1 h2 _ rfl rfl ?_ ?_ ?_ ?_ ?_
        · simp [idx_ok]
        · intro j hj hj2
          simp only [hpc, seen] at hj hj2
          omega
        · simp only [seen]
          rw [← hii]
          exact hroom
        · simp [hpc, Pc.phase2]
        · simp [Pc.phase1]
  | bar2 =>
    simp only [exec, hpc]
    split
    · rename_i hq
      exact inv_barrier2 h1 h2 hpc hq
    · exact ⟨h1, h2⟩
  | ret =>
    simp only [exec, hpc]
    exact ⟨h1, h2⟩
  | aborted =>
    simp only [exec, hpc]
    exact ⟨h1, h2⟩
  | fault =>
    simp only [exec, hpc]
    exact ⟨h1, h2⟩

theorem inv_init (c : Cfg) : Inv c (init zeroed zeroed) := by
  constructor <;>
  · refine ⟨by simp [init, idx_ok], ?_, by simp [init, seen], ?_, ?_, by simp [init, Pc.phase2]⟩
    · intro j hj
      simp [init, seen] at hj
    · intro k hk
      simp [init, zeroed] at hk
    · intro i hi
      simp [init] at hi

theorem inv_step {c : Cfg} (wf : c.WF) {s : Sys} (h : Inv c s) (e : Rank × Oracle) :
    Inv c (step c s e) := by
  obtain ⟨r, o⟩ := e
  cases r with
  | r0 =>
    have := @inv_step_as c wf Rank.r0 s.p0 s.p1 h.1 h.2 o
    exact ⟨this.1, this.2⟩
  | r1 =>
    have := @inv_step_as c wf Rank.r1 s.p1 s.p0 h.2 h.1 o
    exact ⟨this.2, this.1⟩

theorem inv_run_from {c : Cfg} (wf : c.WF) (sched : List (Rank × Oracle)) :
    ∀ s, Inv c s → Inv c (run c sched s) := by
  induction sched with
  | nil => intro s h; exact h
  | cons e rest ih =>
    intro s h
    exact ih (step c s e) (inv_step wf h e)

theorem inv_run {c : Cfg} (wf : c.WF) (sched : List (Rank × Oracle)) :
    Inv c (run c sched (init zeroed zeroed)) :=
  inv_run_from wf sched _ (inv_init c)

/-- A buffer whose `iter` slots were all seen all-ones, every non-zero byte
of which lies in a delivered slot, has the expected final contents. -/
theorem final_of_inv {c : Cfg} {me : Rank} {p q : Proc} (h1 : RoleInv c me p q)
    (h2 : RoleInv c me.peer q p) (hseen : seen c me p.pc = c.iter) :
    p.mybuff = final_buf c := by
  funext k
  unfold final_buf
  by_cases hk : k < c.iter * c.data_size
  · rw [if_pos hk]
    have hS : 0 < c.data_size := by
      rcases Nat.eq_zero_or_pos c.data_size with h0 | h0
      · rw [h0] at hk
        simp at hk
      · exact h0
    have hj : k / c.data_size < c.iter := by
      rw [Nat.div_lt_iff_lt_mul hS]
      exact hk
    have := h1.ones (k / c.data_size) (by rw [hseen]; exact hj) (k % c.data_size)
      (Nat.mod_lt _ hS)
    rw [Nat.div_add_mod' k c.data_size] at this
    exact this
  · rw [if_neg hk]
    by_contra hne
    obtain ⟨i, hi, _, hlt⟩ := h1.origin k hne
    have hle : (i + 1) * c.data_size ≤ c.iter * c.data_size :=
      succ_mul_le_of_lt (h2.sent_ok i hi).1
    omega

/-- C3: in the two-rank model in which a put that has been flushed to
completion has deposited its bytes in the target's registered buffer, with
`size >= 1`, `sdata` all `0x01` and both `mybuff` zeroed on entry, under every
schedule and every behaviour of the transport: when rank 0 takes the end time
(it has left its measurement loop) and when rank 1 has left its loop or
returned, every slot `i < iter` of that rank's `mybuff` is all `0x01`; and
whenever rank 1 is about to issue its put for slot `i`, its own slot `i` is all
`0x01` and rank 0's put of slot `i` has been flushed to completion. -/
theorem handshake (c : Cfg) (sched : List (Rank × Oracle))
    (hsize : 1 ≤ c.data_size) (hiter : 1 ≤ c.iter)
    (haddr : ∀ r, c.base r + c.blen < 2 ^ 64)
    (hsdata : ∀ r k, k < c.slen → c.sdata r k = 1) :
    ((run c sched (init zeroed zeroed)).p0.pc = Pc.put c.iter
        ∨ (run c sched (init zeroed zeroed)).p0.pc = Pc.bar2
        ∨ (run c sched (init zeroed zeroed)).p0.pc = Pc.ret →
      ∀ i, i < c.iter → slot_ones c (run c sched (init zeroed zeroed)).p0.mybuff i)
    ∧ ((run c sched (init zeroed zeroed)).p1.pc = Pc.bar2
        ∨ (run c sched (init zeroed zeroed)).p1.pc = Pc.ret →
      ∀ i, i < c.iter → slot_ones c (run c sched (init zeroed zeroed)).p1.mybuff i)
    ∧ (∀ i, (run c sched (init zeroed zeroed)).p1.pc = Pc.put i →
      slot_ones c (run c sched (init zeroed zeroed)).p1.mybuff i
        ∧ i ∈ (run c sched (init zeroed zeroed)).p0.sent) := by
  have _h := hiter
  have hinv := inv_run (c := c) ⟨haddr, hsdata⟩ sched
  generalize run c sched (init zeroed zeroed) = s at hinv
  obtain ⟨h0, h1⟩ := hinv
  refine ⟨?_, ?_, ?_⟩
  · intro hpc i hi
    apply h0.ones
    rcases hpc with h | h | h <;> simpa [h, seen] using hi
  · intro hpc i hi
    apply h1.ones
    rcases hpc with h | h <;> simpa [h, seen] using hi
  · intro i hpc
    have hones : slot_ones c s.p1.mybuff i := by
      apply h1.ones
      simp [hpc, seen]
    refine ⟨hones, ?_⟩
    have hbyte := hones 0 (by omega)
    have hne : s.p1.mybuff (i * c.data_size + 0) ≠ 0 := by
      rw [hbyte]
      exact Nat.one_ne_zero
    obtain ⟨i0, hi0, hlo, hhi⟩ := h1.origin _ hne
    have e1 : i0 ≤ i := by
      apply Nat.le_of_mul_le_mul_right _ hsize
      omega
    have e2 : i < i0 + 1 := by
      apply Nat.lt_of_mul_lt_mul_right (a := c.data_size)
      omega
    have : i0 = i := by omega
    rw [← this]
    exact hi0

/-- Witness of C3, seed scenario S1: with `iter = 1`, `warmup = 0`, `size = 8`
both ranks return from `bench` and `mybuff[0..8]` is `0x01` eight times on both. -/
theorem handshake_witness :
    (run seed_s1 seed_s1_sched (init zeroed zeroed)).p0.pc = Pc.ret
      ∧ (run seed_s1 seed_s1_sched (init zeroed zeroed)).p1.pc = Pc.ret
      ∧ slot_ones seed_s1 (run seed_s1 seed_s1_sched (init zeroed zeroed)).p0.mybuff 0
      ∧ slot_ones seed_s1 (run seed_s1 seed_s1_sched (init zeroed zeroed)).p1.mybuff 0 :=
  have h := handshake seed_s1 seed_s1_sched (by decide) (by decide)
    (by intro r; cases r <;> decide) (by intro r k _; rfl)
  ⟨by decide, by decide, h.1 (Or.inr (Or.inr (by decide))) 0 (by decide),
    h.2.1 (Or.inr (by decide)) 0 (by decide)⟩

/-! ### Completion on a calm transport -/

theorem memcmp_zeroed (off n : Nat) : memcmp_eq zeroed off n 0 = true := by
  rw [memcmp_eq_iff]
  intro k _
  rfl

theorem calm_entry (c : Cfg) (me : Rank) (p q : Proc) (hpc : p.pc = Pc.entry)
    (hz : memcmp_eq p.mybuff 0 c.data_size 0 = true) (hfit : c.data_size ≤ c.blen) :
    (step_as c me calm p q).1.pc = Pc.warm 0 ∧ (step_as c me calm p q).2 = q
      ∧ (step_as c me calm p q).1.mybuff = p.mybuff := by
  simp [step_as, exec, accesses, Access.fits, hpc, hz, hfit]

theorem calm_warm (c : Cfg) (me : Rank) (p q : Proc) (i : Nat) (hpc : p.pc = Pc.warm i)
    (hi : i < c.warmup) (haddr : c.base me.peer + c.blen < 2 ^ 64)
    (hfit : (i + 1) * c.data_size ≤ c.blen) :
    (step_as c me calm p q).1.pc = Pc.warm (i + 1) ∧ (step_as c me calm p q).2.pc = q.pc := by
  have hS : (i + 1) * c.data_size = i * c.data_size + c.data_size := by ring
  have hra : remote_addr (c.base me.peer) i c.data_size = c.base me.peer + i * c.data_size :=
    remote_addr_eq (by omega)
  have hf : c.base me.peer + i * c.data_size + c.data_size ≤ c.base me.peer + c.blen := by omega
  simp [step_as, exec, accesses, Access.fits, hpc, hi, hra, hf, put_flush, calm]

theorem calm_warm_exit (c : Cfg) (me : Rank) (p q : Proc) (i : Nat) (hpc : p.pc = Pc.warm i)
    (hi : ¬ i < c.warmup) :
    (step_as c me calm p q).1.pc = Pc.bar1 ∧ (step_as c me calm p q).2 = q := by
  simp [step_as, exec, accesses, hpc, hi]

theorem calm_put (c : Cfg) (me : Rank) (p q : Proc) (i : Nat) (hpc : p.pc = Pc.put i)
    (hi : i < c.iter) (haddr : c.base me.peer + c.blen < 2 ^ 64)
    (hsdata : ∀ k, k < c.slen → c.sdata me k = 1)
    (hfb : (i + 1) * c.data_size ≤ c.blen) (hfs : (i + 1) * c.data_size ≤ c.slen) :
    (step_as c me calm p q).1.pc
        = (match me with
          | Rank.r0 => Pc.poll i
          | Rank.r1 => Pc.poll (i + 1))
      ∧ (step_as c me calm p q).2.pc = q.pc
      ∧ (step_as c me calm p q).1.mybuff = p.mybuff
      ∧ slot_ones c (step_as c me calm p q).2.mybuff i := by
  have hS : (i + 1) * c.data_size = i * c.data_size + c.data_size := by ring
  have hoff : slot_off i c.data_size = i * c.data_size := slot_off_eq (by omega)
  have hra : remote_addr (c.base me.peer) i c.data_size = c.base me.peer + i * c.data_size :=
    remote_addr_eq (by omega)
  have hf : c.base me.peer + i * c.data_size + c.data_size ≤ c.base me.peer + c.blen := by omega
  have hg : i * c.data_size + c.data_size ≤ c.slen := by omega
  have hones : slot_ones c
      (rma_write q.mybuff (i * c.data_size) c.data_size (c.sdata me) (i * c.data_size)) i := by
    intro k hk
    simp only [rma_write]
    rw [if_pos (by omega)]
    apply hsdata
    omega
  cases me <;>
    simpa [step_as, exec, accesses, Access.fits, hpc, hi, hra, hoff, hf, hg, put_flush, calm]
      using hones

theorem calm_poll (c : Cfg) (me : Rank) (p q : Proc) (i : Nat) (hpc : p.pc = Pc.poll i)
    (hi : i < c.iter) (hb : c.blen < 2 ^ 64) (hones : slot_ones c p.mybuff i)
    (hfb : (i + 1) * c.data_size ≤ c.blen) :
    (step_as c me calm p q).1.pc
        = (match me with
          | Rank.r0 => Pc.put (i + 1)
          | Rank.r1 => Pc.put i)
      ∧ (step_as c me calm p q).2 = q
      ∧ (step_as c me calm p q).1.mybuff = p.mybuff := by
  have hS : (i + 1) * c.data_size = i * c.data_size + c.data_size := by ring
  have hoff : slot_off i c.data_size = i * c.data_size := slot_off_eq (by omega)
  have hg : i * c.data_size + c.data_size ≤ c.blen := by omega
  have hcmp : memcmp_eq p.mybuff (i * c.data_size) c.data_size 1 = true := by
    rw [memcmp_eq_iff]
    exact hones
  cases me <;>
    simp [step_as, exec, accesses, Access.fits, hpc, hi, hoff, hg, poll_slot, hcmp]

theorem run_append (c : Cfg) (a b : List (Rank × Oracle)) (s : Sys) :
    run c (a ++ b) s = run c b (run c a s) := by
  unfold run
  exact List.foldl_append _ _ _ _

theorem run_cons (c : Cfg) (e : Rank × Oracle) (rest : List (Rank × Oracle)) (s : Sys) :
    run c (e :: rest) s = run c rest (step c s e) := rfl

theorem run_nil (c : Cfg) (s : Sys) : run c [] s = s := rfl

theorem step_r0_p0 (c : Cfg) (s : Sys) (o : Oracle) :
    (step c s (Rank.r0, o)).p0 = (step_as c Rank.r0 o s.p0 s.p1).1 := rfl

theorem step_r0_p1 (c : Cfg) (s : Sys) (o : Oracle) :
    (step c s (Rank.r0, o)).p1 = (step_as c Rank.r0 o s.p0 s.p1).2 := rfl

theorem step_r1_p1 (c : Cfg) (s : Sys) (o : Oracle) :
    (step c s (Rank.r1, o)).p1 = (step_as c Rank.r1 o s.p1 s.p0).1 := rfl

theorem step_r1_p0 (c : Cfg) (s : Sys) (o : Oracle) :
    (step c s (Rank.r1, o)).p0 = (step_as c Rank.r1 o s.p1 s.p0).2 := rfl

/-- Rank 0 runs its warmup loop to the barrier. -/
theorem calm_warm_loop0 (c : Cfg) (haddr : ∀ r, c.base r + c.blen < 2 ^ 64)
    (hwb : c.warmup * c.data_size ≤ c.blen) :
    ∀ n i s, s.p0.pc = Pc.warm i → i + n = c.warmup →
      (run c (List.replicate (n + 1) (Rank.r0, calm)) s).p0.pc = Pc.bar1
        ∧ (run c (List.replicate (n + 1) (Rank.r0, calm)) s).p1.pc = s.p1.pc := by
  intro n
  induction n with
  | zero =>
    intro i s hpc hi
    have h := calm_warm_exit c Rank.r0 s.p0 s.p1 i hpc (by omega)
    simp only [List.replicate, run_cons, run_nil, step_r0_p0, step_r0_p1]
    exact ⟨h.1, by rw [h.2]⟩
  | succ n ih =>
    intro i s hpc hi
    have hle : (i + 1) * c.data_size ≤ c.warmup * c.data_size :=
      Nat.mul_le_mul_right _ (by omega)
    have h := calm_warm c Rank.r0 s.p0 s.p1 i hpc (by omega) (haddr _) (by omega)
    rw [List.replicate_succ, run_cons]
    have h2 := ih (i + 1) (step c s (Rank.r0, calm)) (by rw [step_r0_p0]; exact h.1) (by omega)
    refine ⟨h2.1, ?_⟩
    rw [h2.2, step_r0_p1]
    exact h.2

/-- Rank 1 runs its warmup loop to the barrier. -/
theorem calm_warm_loop1 (c : Cfg) (haddr : ∀ r, c.base r + c.blen < 2 ^ 64)
    (hwb : c.warmup * c.data_size ≤ c.blen) :
    ∀ n i s, s.p1.pc = Pc.warm i → i + n = c.warmup →
      (run c (List.replicate (n + 1) (Rank.r1, calm)) s).p1.pc = Pc.bar1
        ∧ (run c (List.replicate (n + 1) (Rank.r1, calm)) s).p0.pc = s.p0.pc := by
  intro n
  induction n with
  | zero =>
    intro i s hpc hi
    have h := calm_warm_exit c Rank.r1 s.p1 s.p0 i hpc (by omega)
    simp only [List.replicate, run_cons, run_nil, step_r1_p0, step_r1_p1]
    exact ⟨h.1, by rw [h.2]⟩
  | succ n ih =>
    intro i s hpc hi
    have hle : (i + 1) * c.data_size ≤ c.warmup * c.data_size :=
      Nat.mul_le_mul_right _ (by omega)
    have h := calm_warm c Rank.r1 s.p1 s.p0 i hpc (by omega) (haddr _) (by omega)
    rw [List.replicate_succ, run_cons]
    have h2 := ih (i + 1) (step c s (Rank.r1, calm)) (by rw [step_r1_p1]; exact h.1) (by omega)
    refine ⟨h2.1, ?_⟩
    rw [h2.2, step_r1_p0]
    exact h.2

/-- One measurement iteration on a calm transport. -/
theorem calm_round_spec (c : Cfg) (wf : c.WF) (i : Nat) (s : Sys)
    (h0 : s.p0.pc = Pc.put i) (h1 : s.p1.pc = Pc.poll i) (hi : i < c.iter)
    (hb : c.iter * c.data_size ≤ c.blen) (hs : c.iter * c.data_size ≤ c.slen) :
    (run c calm_round s).p0.pc = Pc.put (i + 1)
      ∧ (run c calm_round s).p1.pc = Pc.poll (i + 1) := by
  have hle : (i + 1) * c.data_size ≤ c.iter * c.data_size := succ_mul_le_of_lt hi
  have hbl := blen_lt c wf
  -- rank 0 puts slot i
  have a := calm_put c Rank.r0 s.p0 s.p1 i h0 hi (wf.addr _) (wf.sdata_ones _)
    (by omega) (by omega)
  generalize hs1 : step c s (Rank.r0, calm) = s1
  have a0 : s1.p0.pc = Pc.poll i := by rw [← hs1, step_r0_p0]; exact a.1
  have a1 : s1.p1.pc = Pc.poll i := by rw [← hs1, step_r0_p1, a.2.1]; exact h1
  have a2 : slot_ones c s1.p1.mybuff i := by rw [← hs1, step_r0_p1]; exact a.2.2.2
  -- rank 1 sees slot i
  have b := calm_poll c Rank.r1 s1.p1 s1.p0 i a1 hi hbl a2 (by omega)
  generalize hs2 : step c s1 (Rank.r1, calm) = s2
  have b0 : s2.p0.pc = Pc.poll i := by rw [← hs2, step_r1_p0, b.2.1]; exact a0
  have b1 : s2.p1.pc = Pc.put i := by rw [← hs2, step_r1_p1]; exact b.1
  -- rank 1 puts slot i
  have d := calm_put c Rank.r1 s2.p1 s2.p0 i b1 hi (wf.addr _) (wf.sdata_ones _)
    (by omega) (by omega)
  generalize hs3 : step c s2 (Rank.r1, calm) = s3
  have d0 : s3.p0.pc = Pc.poll i := by rw [← hs3, step_r1_p0, d.2.1]; exact b0
  have d1 : s3.p1.pc = Pc.poll (i + 1) := by rw [← hs3, step_r1_p1]; exact d.1
  have d2 : slot_ones c s3.p0.mybuff i := by rw [← hs3, step_r1_p0]; exact d.2.2.2
  -- rank 0 sees slot i
  have e := calm_poll c Rank.r0 s3.p0 s3.p1 i d0 hi hbl d2 (by omega)
  have hrun : run c calm_round s = step c s3 (Rank.r0, calm) := by
    simp only [calm_round, run_cons, run_nil, hs1, hs2, hs3]
  rw [hrun]
  refine ⟨by rw [step_r0_p0]; exact e.1, ?_⟩
  rw [step_r0_p1, e.2.1]
  exact d1

/-- The measurement loop on a calm transport. -/
theorem calm_rounds (c : Cfg) (wf : c.WF)
    (hb : c.iter * c.data_size ≤ c.blen) (hs : c.iter * c.data_size ≤ c.slen) :
    ∀ n i s, s.p0.pc = Pc.put i → s.p1.pc = Pc.poll i → i + n ≤ c.iter →
      (run c (List.replicate n calm_round).flatten s).p0.pc = Pc.put (i + n)
        ∧ (run c (List.replicate n calm_round).flatten s).p1.pc = Pc.poll (i + n) := by
  intro n
  induction n with
  | zero =>
    intro i s h0 h1 _
    exact ⟨h0, h1⟩
  | succ n ih =>
    intro i s h0 h1 hi
    rw [List.replicate_succ, List.flatten_cons, run_append]
    have h := calm_round_spec c wf i s h0 h1 (by omega) hb hs
    have h2 := ih (i + 1) _ h.1 h.2 (by omega)
    have e : i + 1 + n = i + (n + 1) := by omega
    rw [e] at h2
    exact h2

/-- On a calm transport, with room for the warmup and measurement slots, the
processes reach the head of measurement iteration `n` together. -/
theorem calm_reaches (c : Cfg) (wf : c.WF) (hiter : 1 ≤ c.iter)
    (hwb : c.warmup * c.data_size ≤ c.blen)
    (hb : c.iter * c.data_size ≤ c.blen) (hs : c.iter * c.data_size ≤ c.slen)
    (n : Nat) (hn : n ≤ c.iter) :
    (run c (calm_upto c n) (init zeroed zeroed)).p0.pc = Pc.put n
      ∧ (run c (calm_upto c n) (init zeroed zeroed)).p1.pc = Pc.poll n := by
  have hS : c.data_size ≤ c.blen := by
    have : 1 * c.data_size ≤ c.iter * c.data_size := Nat.mul_le_mul_right _ hiter
    omega
  unfold calm_upto
  -- both asserts pass
  rw [run_append]
  generalize hs1 : run c [(Rank.r0, calm), (Rank.r1, calm)] (init zeroed zeroed) = s1
  have e1 : s1.p0.pc = Pc.warm 0 ∧ s1.p1.pc = Pc.warm 0 := by
    have a := calm_entry c Rank.r0 (init zeroed zeroed).p0 (init zeroed zeroed).p1 rfl
      (memcmp_zeroed _ _) hS
    have b := calm_entry c Rank.r1
      (step c (init zeroed zeroed) (Rank.r0, calm)).p1
      (step c (init zeroed zeroed) (Rank.r0, calm)).p0
      (by rw [step_r0_p1, a.2.1]; rfl)
      (by rw [step_r0_p1, a.2.1]; exact memcmp_zeroed _ _) hS
    rw [← hs1]
    simp only [run_cons, run_nil]
    refine ⟨?_, by rw [step_r1_p1]; exact b.1⟩
    rw [step_r1_p0, b.2.1, step_r0_p0]
    exact a.1
  -- both warmup loops
  rw [run_append]
  have e2 := calm_warm_loop0 c wf.addr hwb c.warmup 0 s1 e1.1 (by omega)
  generalize run c (List.replicate (c.warmup + 1) (Rank.r0, calm)) s1 = s2 at e2
  rw [run_append]
  have e3 := calm_warm_loop1 c wf.addr hwb c.warmup 0 s2 (by rw [e2.2]; exact e1.2) (by omega)
  generalize run c (List.replicate (c.warmup + 1) (Rank.r1, calm)) s2 = s3 at e3
  -- the barrier
  rw [run_cons]
  have e4 : (step c s3 (Rank.r0, calm)).p0.pc = Pc.put 0
      ∧ (step c s3 (Rank.r0, calm)).p1.pc = Pc.poll 0 := by
    have h0 : s3.p0.pc = Pc.bar1 := by rw [e3.2]; exact e2.1
    simp [step, step_as, exec, accesses, h0, e3.1, Rank.start, Rank.peer]
  generalize step c s3 (Rank.r0, calm) = s4 at e4
  -- the measurement loop
  have e5 := calm_rounds c wf hb hs n 0 s4 e4.1 e4.2 (by omega)
  rw [Nat.zero_add] at e5
  exact e5

/-- On a calm transport, with room for the warmup and measurement slots, both
processes return from `bench`. -/
theorem calm_completes (c : Cfg) (wf : c.WF) (hiter : 1 ≤ c.iter)
    (hwb : c.warmup * c.data_size ≤ c.blen)
    (hb : c.iter * c.data_size ≤ c.blen) (hs : c.iter * c.data_size ≤ c.slen) :
    (run c (calm_sched c) (init zeroed zeroed)).p0.pc = Pc.ret
      ∧ (run c (calm_sched c) (init zeroed zeroed)).p1.pc = Pc.ret := by
  unfold calm_sched
  rw [run_append]
  have e5 := calm_reaches c wf hiter hwb hb hs c.iter (le_refl _)
  generalize run c (calm_upto c c.iter) (init zeroed zeroed) = s5 at e5
  -- leaving the loops, and the barrier
  simp [run_cons, run_nil, step, step_as, exec, accesses, e5.1, e5.2, bench_print]

/-! ### Warmup neutrality and memory safety -/

theorem fits_mono (c : Cfg) (me : Rank) (a : Access) {n sN bN : Nat} (hs : n ≤ sN)
    (hb : n ≤ bN) (h : Access.fits c me n n a = true) : Access.fits c me sN bN a = true := by
  cases a <;> simp [Access.fits] at h ⊢ <;> omega

theorem exec_no_fault (c : Cfg) (me : Rank) (o : Oracle) (p q : Proc)
    (hp : p.pc ≠ Pc.fault) (hq : q.pc ≠ Pc.fault) :
    (exec c me o p q).1.pc ≠ Pc.fault ∧ (exec c me o p q).2.pc ≠ Pc.fault := by
  cases hpc : p.pc <;> cases me <;> simp only [exec, hpc, put_flush, poll_slot] <;>
    (repeat' split) <;> simp_all [Rank.start, Rank.peer]

/-- With `warmup <= iter` and `iter >= 1`, every access of the next step of a
process lies in the first `iter * data_size` bytes of its buffer. -/
theorem accesses_within {c : Cfg} (haddr : ∀ r, c.base r + c.blen < 2 ^ 64)
    {me : Rank} {p q : Proc} (h1 : RoleInv c me p q)
    (hiter : 1 ≤ c.iter) (hw : c.warmup ≤ c.iter) (hb : c.iter * c.data_size ≤ c.blen) :
    ∀ a, a ∈ accesses c me p.pc →
      Access.fits c me (c.iter * c.data_size) (c.iter * c.data_size) a = true := by
  have hidx := h1.idx
  have ha := haddr me.peer
  have key : ∀ i, i < c.iter →
      slot_off i c.data_size + c.data_size ≤ c.iter * c.data_size
      ∧ c.base me.peer ≤ remote_addr (c.base me.peer) i c.data_size
      ∧ remote_addr (c.base me.peer) i c.data_size + c.data_size
          ≤ c.base me.peer + c.iter * c.data_size := by
    intro i hi
    have hle : (i + 1) * c.data_size ≤ c.iter * c.data_size := succ_mul_le_of_lt hi
    have hS : (i + 1) * c.data_size = i * c.data_size + c.data_size := by ring
    rw [slot_off_eq (by omega), remote_addr_eq (by omega)]
    omega
  have h1S : c.data_size ≤ c.iter * c.data_size := by
    have : 1 * c.data_size ≤ c.iter * c.data_size := Nat.mul_le_mul_right _ hiter
    omega
  intro a hmem
  cases hpc : p.pc with
  | entry =>
    rw [hpc] at hmem
    simp only [accesses, List.mem_singleton] at hmem
    subst hmem
    simpa [Access.fits] using h1S
  | warm i =>
    rw [hpc] at hmem
    simp only [accesses] at hmem
    split at hmem
    · rename_i hi
      simp only [List.mem_singleton] at hmem
      subst hmem
      have := key i (by omega)
      simp [Access.fits, this]
    · simp at hmem
  | put i =>
    rw [hpc] at hmem hidx
    cases me with
    | r0 =>
      simp only [accesses] at hmem
      split at hmem
      · rename_i hi
        have := key i hi
        simp only [List.mem_cons, List.mem_singleton, List.not_mem_nil, or_false] at hmem
        rcases hmem with h | h <;> subst h <;> simp [Access.fits, this]
      · simp at hmem
    | r1 =>
      simp only [idx_ok] at hidx
      have := key i hidx
      simp only [accesses, List.mem_cons, List.mem_singleton, List.not_mem_nil, or_false] at hmem
      rcases hmem with h | h <;> subst h <;> simp [Access.fits, this]
  | poll i =>
    rw [hpc] at hmem hidx
    cases me with
    | r0 =>
      simp only [idx_ok] at hidx
      have := key i hidx
      simp only [accesses, List.mem_singleton] at hmem
      subst hmem
      simp [Access.fits, this]
    | r1 =>
      simp only [accesses] at hmem
      split at hmem
      · rename_i hi
        have := key i hi
        simp only [List.mem_singleton] at hmem
        subst hmem
        simp [Access.fits, this]
      · simp at hmem
  | bar1 => rw [hpc] at hmem; simp [accesses] at hmem
  | bar2 => rw [hpc] at hmem; simp [accesses] at hmem
  | ret => rw [hpc] at hmem; simp [accesses] at hmem
  | aborted => rw [hpc] at hmem; simp [accesses] at hmem
  | fault => rw [hpc] at hmem; simp [accesses] at hmem

/-- No process has faulted. -/
theorem no_fault_step {c : Cfg} (haddr : ∀ r, c.base r + c.blen < 2 ^ 64)
    (hiter : 1 ≤ c.iter) (hw : c.warmup ≤ c.iter)
    (hb : c.iter * c.data_size ≤ c.blen) (hs : c.iter * c.data_size ≤ c.slen)
    {s : Sys} (hinv : Inv c s) (hf : s.p0.pc ≠ Pc.fault ∧ s.p1.pc ≠ Pc.fault)
    (e : Rank × Oracle) :
    (step c s e).p0.pc ≠ Pc.fault ∧ (step c s e).p1.pc ≠ Pc.fault := by
  obtain ⟨r, o⟩ := e
  cases r with
  | r0 =>
    have hfit : (accesses c Rank.r0 s.p0.pc).all (Access.fits c Rank.r0 c.slen c.blen) = true := by
      rw [List.all_eq_true]
      intro a ha
      exact fits_mono c _ a hs hb (accesses_within haddr hinv.1 hiter hw hb a ha)
    have h := exec_no_fault c Rank.r0 o s.p0 s.p1 hf.1 hf.2
    simp only [step, step_as, hfit, if_true]
    exact h
  | r1 =>
    have hfit : (accesses c Rank.r1 s.p1.pc).all (Access.fits c Rank.r1 c.slen c.blen) = true := by
      rw [List.all_eq_true]
      intro a ha
      exact fits_mono c _ a hs hb (accesses_within haddr hinv.2 hiter hw hb a ha)
    have h := exec_no_fault c Rank.r1 o s.p1 s.p0 hf.2 hf.1
    simp only [step, step_as, hfit, if_true]
    exact ⟨h.2, h.1⟩

theorem no_fault_run_from {c : Cfg} (wf : c.WF)
    (hiter : 1 ≤ c.iter) (hw : c.warmup ≤ c.iter)
    (hb : c.iter * c.data_size ≤ c.blen) (hs : c.iter * c.data_size ≤ c.slen)
    (sched : List (Rank × Oracle)) :
    ∀ s, Inv c s → (s.p0.pc ≠ Pc.fault ∧ s.p1.pc ≠ Pc.fault) →
      (run c sched s).p0.pc ≠ Pc.fault ∧ (run c sched s).p1.pc ≠ Pc.fault := by
  induction sched with
  | nil => intro s _ h; exact h
  | cons e rest ih =>
    intro s hinv h
    exact ih (step c s e) (inv_step wf hinv e) (no_fault_step wf.addr hiter hw hb hs hinv h e)

/-- With `warmup <= iter`, under the preconditions of `bench`, no step of any
run leaves the first `iter * data_size` bytes of a buffer, and nothing faults. -/
theorem safe_run {c : Cfg} (wf : c.WF)
    (hiter : 1 ≤ c.iter) (hw : c.warmup ≤ c.iter)
    (hb : c.iter * c.data_size ≤ c.blen) (hs : c.iter * c.data_size ≤ c.slen)
    (sched : List (Rank × Oracle)) (r : Rank) :
    ((run c sched (init zeroed zeroed)).proc r).pc ≠ Pc.fault
      ∧ ∀ a, a ∈ accesses c r ((run c sched (init zeroed zeroed)).proc r).pc →
        Access.fits c r (c.iter * c.data_size) (c.iter * c.data_size) a = true := by
  have hinv := inv_run wf sched
  have hnf := no_fault_run_from wf hiter hw hb hs sched (init zeroed zeroed) (inv_init c)
    (by simp [init])
  cases r with
  | r0 => exact ⟨hnf.1, accesses_within wf.addr hinv.1 hiter hw hb⟩
  | r1 => exact ⟨hnf.2, accesses_within wf.addr hinv.2 hiter hw hb⟩

/-- When a process has returned, its `mybuff` has the expected final contents. -/
theorem final_run {c : Cfg} (wf : c.WF) (sched : List (Rank × Oracle)) (r : Rank)
    (hret : ((run c sched (init zeroed zeroed)).proc r).pc = Pc.ret) :
    ((run c sched (init zeroed zeroed)).proc r).mybuff = final_buf c := by
  have hinv := inv_run wf sched
  cases r with
  | r0 =>
    simp only [Sys.proc] at hret ⊢
    exact final_of_inv hinv.1 hinv.2 (by simp [hret, seen])
  | r1 =>
    simp only [Sys.proc] at hret ⊢
    exact final_of_inv hinv.2 hinv.1 (by simp [hret, seen])

/-- C10, as stated, fails: with `iter = 1`, `size = 8`, buffers of exactly
`iter * size = 8` bytes, zeroed `mybuff` and `warmup = 2`, rank 0 reaches the
warmup put of `i = 1`, whose remote write targets bytes `[8, 16)` of the peer
region, outside `[0, iter * size)`; the step is a fault. -/
theorem warmup_neutral_counterexample :
    1 ≤ long_warmup.iter ∧ 1 ≤ long_warmup.data_size
      ∧ long_warmup.iter * long_warmup.data_size ≤ long_warmup.blen
      ∧ long_warmup.iter * long_warmup.data_size ≤ long_warmup.slen
      ∧ (run long_warmup [(Rank.r0, calm), (Rank.r0, calm)] (init zeroed zeroed)).p0.pc
          = Pc.warm 1
      ∧ accesses long_warmup Rank.r0 (Pc.warm 1) = [Access.remote (4096 + 8) 8]
      ∧ Access.fits long_warmup Rank.r0 (long_warmup.iter * long_warmup.data_size)
          (long_warmup.iter * long_warmup.data_size) (Access.remote (4096 + 8) 8) = false
      ∧ (run long_warmup [(Rank.r0, calm), (Rank.r0, calm), (Rank.r0, calm)]
          (init zeroed zeroed)).p0.pc = Pc.fault := by
  decide

/-- C10, amended: for every `iter >= 1`, `size >= 1` and warmup counts
`w1, w2 <= iter`, under the preconditions of `bench` (`sdata` all ones, `sdata`
and both `mybuff` of length at least `iter * size`, `mybuff` zeroed), in every
run with either warmup count no process faults and every local access and
every remote write stays inside `[0, iter * size)` of its buffer; the contents
of a rank's `mybuff` when `bench` has returned are the same for `w1` as for
`w2`; and with either warmup count `bench` does return on a transport that
completes every operation. -/
theorem warmup_neutral (c : Cfg) (w1 w2 : Nat)
    (hiter : 1 ≤ c.iter) (hsize : 1 ≤ c.data_size)
    (haddr : ∀ r, c.base r + c.blen < 2 ^ 64)
    (hsdata : ∀ r k, k < c.slen → c.sdata r k = 1)
    (hb : c.iter * c.data_size ≤ c.blen) (hs : c.iter * c.data_size ≤ c.slen)
    (hw1 : w1 ≤ c.iter) (hw2 : w2 ≤ c.iter) :
    (∀ w, w = w1 ∨ w = w2 → ∀ sched r,
      ((run (c.with_warmup w) sched (init zeroed zeroed)).proc r).pc ≠ Pc.fault
        ∧ ∀ a, a ∈ accesses (c.with_warmup w) r
              ((run (c.with_warmup w) sched (init zeroed zeroed)).proc r).pc →
          Access.fits (c.with_warmup w) r (c.iter * c.data_size) (c.iter * c.data_size) a
            = true)
    ∧ (∀ sched1 sched2 r,
      ((run (c.with_warmup w1) sched1 (init zeroed zeroed)).proc r).pc = Pc.ret →
      ((run (c.with_warmup w2) sched2 (init zeroed zeroed)).proc r).pc = Pc.ret →
      ((run (c.with_warmup w1) sched1 (init zeroed zeroed)).proc r).mybuff
        = ((run (c.with_warmup w2) sched2 (init zeroed zeroed)).proc r).mybuff)
    ∧ (∀ w, w = w1 ∨ w = w2 → ∀ r,
      ((run (c.with_warmup w) (calm_sched (c.with_warmup w)) (init zeroed zeroed)).proc r).pc
        = Pc.ret) := by
  have _h := hsize
  have wf : ∀ w, (c.with_warmup w).WF := fun w => ⟨haddr, hsdata⟩
  have hle : ∀ w, w = w1 ∨ w = w2 → w ≤ c.iter := by
    intro w hw
    rcases hw with h | h <;> rw [h] <;> assumption
  refine ⟨?_, ?_, ?_⟩
  · intro w hw sched r
    exact safe_run (c := c.with_warmup w) (wf w) hiter (hle w hw) hb hs sched r
  · intro sched1 sched2 r h1 h2
    rw [final_run (wf w1) sched1 r h1, final_run (wf w2) sched2 r h2]
    rfl
  · intro w hw r
    have hwb : (c.with_warmup w).warmup * (c.with_warmup w).data_size
        ≤ (c.with_warmup w).blen :=
      le_trans (Nat.mul_le_mul_right _ (hle w hw)) hb
    have h := calm_completes (c.with_warmup w) (wf w) hiter hwb hb hs
    cases r with
    | r0 => exact h.1
    | r1 => exact h.2

/-- Witness of the amended C10: `iter = 1`, `size = 8`, buffers of 8 bytes,
warmup counts 0 and 1. -/
theorem warmup_neutral_witness :
    (∀ sched r, ((run (seed_s1.with_warmup 1) sched (init zeroed zeroed)).proc r).pc ≠ Pc.fault)
      ∧ (∀ r, ((run (seed_s1.with_warmup 0) (calm_sched (seed_s1.with_warmup 0))
            (init zeroed zeroed)).proc r).mybuff
          = ((run (seed_s1.with_warmup 1) (calm_sched (seed_s1.with_warmup 1))
            (init zeroed zeroed)).proc r).mybuff) :=
  have h := warmup_neutral seed_s1 0 1 (by decide) (by decide)
    (by intro r; cases r <;> decide) (by intro r k _; rfl) (by decide) (by decide)
    (by decide) (by decide)
  ⟨fun sched r => (h.1 1 (Or.inr rfl) sched r).1,
    fun r => h.2.1 _ _ r (h.2.2 0 (Or.inl rfl) r) (h.2.2 1 (Or.inr rfl) r)⟩

/-! ### Slot isolation -/

theorem remote_off {b x : Nat} (hx : x < 2 ^ 64) (hle : b ≤ wrap64 (b + x)) :
    wrap64 (b + x) - b = x := by
  unfold wrap64 at hle ⊢
  norm_num at hx hle ⊢
  omega

/-- C5: within one `bench` invocation, for every `size >= 1` and measurement
iterations `i < j < iter` with `j * size + size` not overflowing 64 bits, the
step of either rank that performs the put of iteration `j` reads `sdata` at
`[j * size, (j + 1) * size)` and either leaves the peer region alone (the step
faulted, the put was refused or the flush erred) or writes exactly the bytes
of that `sdata` range onto `[j * size, (j + 1) * size)` of the peer region; it
never writes its own `mybuff`; that range lies at offsets `>= (i + 1) * size`,
so no byte below `(i + 1) * size` changes and the ranges of iterations `i` and
`j` are disjoint. -/
theorem slot_isolation (c : Cfg) (me : Rank) (o : Oracle) (p q : Proc) (i j : Nat)
    (hsize : 1 ≤ c.data_size) (hij : i < j) (hj : j < c.iter)
    (hno : j * c.data_size + c.data_size < 2 ^ 64) (hpc : p.pc = Pc.put j) :
    accesses c me p.pc
        = [Access.sdata (j * c.data_size) c.data_size,
           Access.remote (remote_addr (c.base me.peer) j c.data_size) c.data_size]
      ∧ ((step_as c me o p q).2.mybuff = q.mybuff
          ∨ (step_as c me o p q).2.mybuff
            = rma_write q.mybuff (j * c.data_size) c.data_size (c.sdata me) (j * c.data_size))
      ∧ (o.put ≠ StatusPtr.err → o.flush ≠ StatusPtr.err →
          (accesses c me p.pc).all (Access.fits c me c.slen c.blen) = true →
          (step_as c me o p q).2.mybuff
            = rma_write q.mybuff (j * c.data_size) c.data_size (c.sdata me) (j * c.data_size))
      ∧ (step_as c me o p q).1.mybuff = p.mybuff
      ∧ (i + 1) * c.data_size ≤ j * c.data_size
      ∧ (∀ k, k < (i + 1) * c.data_size → (step_as c me o p q).2.mybuff k = q.mybuff k)
      ∧ (∀ k, ¬ (i * c.data_size ≤ k ∧ k < (i + 1) * c.data_size
          ∧ j * c.data_size ≤ k ∧ k < (j + 1) * c.data_size)) := by
  have _h := hsize
  have hoff : slot_off j c.data_size = j * c.data_size := slot_off_eq (by omega)
  have hle : (i + 1) * c.data_size ≤ j * c.data_size := Nat.mul_le_mul_right _ hij
  have hacc : accesses c me p.pc
      = [Access.sdata (j * c.data_size) c.data_size,
         Access.remote (remote_addr (c.base me.peer) j c.data_size) c.data_size] := by
    rw [hpc]
    cases me <;> simp [accesses, hj, hoff]
  have hexec : ∃ next, exec c me o p q
      = put_flush c me o (c.sdata me) (j * c.data_size)
          (remote_addr (c.base me.peer) j c.data_size) (some j) next p q := by
    cases me
    · exact ⟨Pc.poll j, by simp [exec, hpc, hj, hoff]⟩
    · exact ⟨Pc.poll (j + 1), by simp [exec, hpc, hoff]⟩
  obtain ⟨next, hexec⟩ := hexec
  have hown : (step_as c me o p q).1.mybuff = p.mybuff := by
    unfold step_as
    split
    · rw [hexec]
      unfold put_flush
      (repeat' split) <;> rfl
    · rfl
  have hwr : (o.put ≠ StatusPtr.err → o.flush ≠ StatusPtr.err →
        (accesses c me p.pc).all (Access.fits c me c.slen c.blen) = true →
        (step_as c me o p q).2.mybuff
          = rma_write q.mybuff (j * c.data_size) c.data_size (c.sdata me)
              (j * c.data_size)) := by
    intro h1 h2 hfit
    unfold step_as
    rw [if_pos hfit, hexec]
    rw [hacc] at hfit
    simp [Access.fits] at hfit
    have hsub : remote_addr (c.base me.peer) j c.data_size - c.base me.peer
        = j * c.data_size := by
      have hle2 := hfit.2.1
      unfold remote_addr at hle2 ⊢
      rw [hoff] at hle2 ⊢
      exact remote_off (by omega) hle2
    simp [put_flush, h1, h2, hsub]
  have hcases : (step_as c me o p q).2.mybuff = q.mybuff
      ∨ (step_as c me o p q).2.mybuff
        = rma_write q.mybuff (j * c.data_size) c.data_size (c.sdata me)
            (j * c.data_size) := by
    by_cases hfit : (accesses c me p.pc).all (Access.fits c me c.slen c.blen) = true
    · by_cases h2 : o.flush = StatusPtr.err
      · left
        unfold step_as
        rw [if_pos hfit, hexec]
        simp [put_flush, h2]
      · by_cases h1 : o.put = StatusPtr.err
        · left
          unfold step_as
          rw [if_pos hfit, hexec]
          simp [put_flush, h1, h2]
        · exact Or.inr (hwr h1 h2 hfit)
    · left
      unfold step_as
      rw [if_neg hfit]
  refine ⟨hacc, hcases, hwr, hown, hle, ?_, ?_⟩
  · intro k hk
    rcases hcases with h | h
    · rw [h]
    · rw [h]
      simp only [rma_write]
      rw [if_neg (by omega)]
  · intro k
    omega

/-- Witness of C5: iterations 0 and 1 of seed scenario S4 (`size = 64`), rank 0
standing at its put of iteration 1. -/
theorem slot_isolation_witness :
    (0 + 1) * seed_s4.data_size ≤ 1 * seed_s4.data_size
      ∧ (step_as seed_s4 Rank.r0 calm
          { pc := Pc.put 1, mybuff := zeroed, calls := [], sent := [], out := [] }
          { pc := Pc.poll 1, mybuff := zeroed, calls := [], sent := [], out := [] }).2.mybuff
        = rma_write zeroed (1 * seed_s4.data_size) seed_s4.data_size (seed_s4.sdata Rank.r0)
            (1 * seed_s4.data_size) :=
  have h := slot_isolation seed_s4 Rank.r0 calm
    { pc := Pc.put 1, mybuff := zeroed, calls := [], sent := [], out := [] }
    { pc := Pc.poll 1, mybuff := zeroed, calls := [], sent := [], out := [] } 0 1
    (by decide) (by decide) (by decide) (by decide) rfl
  ⟨h.2.2.2.2.1, h.2.2.1 (by decide) (by decide) (by decide)⟩

/-! ### Completion handling -/

theorem sweep_exit (fuel i : Nat) (h : 1024 * 1024 * 8 < i) : sweep (fuel + 1) i = some [] := by
  simp only [sweep]
  rw [if_neg (by omega)]

/-- C4, as stated, fails: the run of `main` on rank 0 prints 21 data rows, not
22 (the sizes `8 * 2^k` for `k = 0 .. 20`, twenty doublings). -/
theorem sweep_rows_counterexample :
    ∃ ls, main_stdout 22 0 = some ls ∧ (dataRows ls).length = 21 ∧ (dataRows ls).length ≠ 22 :=
  ⟨_, rfl, by decide, by decide⟩

/-- C4, amended: the size sweep of `main` terminates (its 22nd loop test
fails, and a larger bound on the tests changes nothing) after calling `bench`
with the 21 sizes `8, 16, ..., 8388608` (twenty doublings); every call of
`bench` returning, rank 0 prints exactly 21 data rows, one per size and in
that order, after one header line, 22 lines in all, which is `1 + sweep_count`;
every other rank prints nothing. -/
theorem sweep_rows :
    sweep 21 8 = none
      ∧ (∀ extra, sweep (22 + extra) 8
          = some [8, 16, 32, 64, 128, 256, 512, 1024, 2048, 4096, 8192, 16384, 32768, 65536,
              131072, 262144, 524288, 1048576, 2097152, 4194304, 8388608])
      ∧ (∀ extra, main_stdout (22 + extra) 0
          = some (Line.header ::
              [8, 16, 32, 64, 128, 256, 512, 1024, 2048, 4096, 8192, 16384, 32768, 65536,
                131072, 262144, 524288, 1048576, 2097152, 4194304, 8388608].map Line.row))
      ∧ (∃ ls sizes, main_stdout 22 0 = some ls ∧ sweep 22 8 = some sizes
          ∧ sizes.length = 21 ∧ ls.length = 1 + sizes.length
          ∧ (dataRows ls).length = 21 ∧ ls.head? = some Line.header)
      ∧ (∀ extra other, main_stdout (22 + extra) (other + 1) = some []) := by
  have hsweep : ∀ extra, sweep (22 + extra) 8
      = some [8, 16, 32, 64, 128, 256, 512, 1024, 2048, 4096, 8192, 16384, 32768, 65536,
          131072, 262144, 524288, 1048576, 2097152, 4194304, 8388608] := by
    intro extra
    have e : 22 + extra = extra + 22 := by omega
    rw [e]
    simp [sweep]
  refine ⟨by decide, hsweep, ?_, ⟨_, _, rfl, rfl, by decide, by decide, by decide, by decide⟩, ?_⟩
  · intro extra
    simp only [main_stdout, hsweep]
    decide
  · intro extra other
    simp only [main_stdout, hsweep]
    simp [main_header, bench_print]

/-! ## Theorems: resources -/

theorem range_two : List.range 2 = [0, 1] := rfl

theorem booted_eq (k : Codes) :
    World.booted k
      = { held := [Res.context, Res.worker, Res.ep_table, Res.ep 0, Res.ep 1],
          ucp_context := true, ucp_worker := true, endpoints := true, rkeys := false,
          register_buffer := false, remote_addresses := false, misuse := false } := by
  simp [World.booted, comm_init, InitEnv.all_ok, create_ucp_endpoints, mpi_worker_exchange,
    create_loop, World.acquire, World.release, World.free, World.fresh, range_two]

/-- C7 on the code: `reg_buffer` with two peers after a successful `comm_init`,
the unpack of peer 1's key failing. It returns `-1` with both tables freed and
the three registry variables cleared, but the memory registration is not
unmapped, the key unpacked for peer 0 is not destroyed, the key blob of peer 1
and the blob array are not released, and the endpoint table, which
`reg_buffer` did not acquire, is freed while `endpoints` still points to it. -/
theorem reg_buffer_unpack_failure (k : Codes) :
    (reg_buffer k 2 { RegEnv.all_ok with rkey_unpack := fun i => decide (i = 0) }
        (World.booted k)).1 = -1
      ∧ (reg_buffer k 2 { RegEnv.all_ok with rkey_unpack := fun i => decide (i = 0) }
          (World.booted k)).2
        = { held := [Res.context, Res.worker, Res.ep 0, Res.ep 1, Res.mem_reg, Res.pack_table,
              Res.key_blob 1, Res.rkey 0],
            ucp_context := true, ucp_worker := true, endpoints := true, rkeys := false,
            register_buffer := false, remote_addresses := false, misuse := false } := by
  rw [booted_eq]
  simp [reg_buffer, RegEnv.all_ok, mpi_buffer_exchange, unpack_loop, reg_fail_full,
    reg_fail_endpoints, reg_fail, World.acquire, World.release, World.free, range_two]

/-- C8 on the code: after a successful `comm_init` with two peers the endpoint
table is held; `reg_buffer` keeps it when it succeeds and when the first
`malloc` fails, but when the second `malloc` fails (labels `fail_endpoints`
and `fail_full` both run line 107) it frees the table, leaving `endpoints`
dangling and both endpoints undestroyed; `comm_finalize` then uses and frees
the freed table. -/
theorem reg_buffer_frees_endpoints (k : Codes) :
    Res.ep_table ∈ (World.booted k).held
      ∧ Res.ep_table ∈ (reg_buffer k 2 RegEnv.all_ok (World.booted k)).2.held
      ∧ Res.ep_table
          ∈ (reg_buffer k 2 { RegEnv.all_ok with malloc_rkeys := false } (World.booted k)).2.held
      ∧ (reg_buffer k 2 { RegEnv.all_ok with malloc_raddrs := false } (World.booted k))
        = (k.ERR_NO_MEMORY,
            { held := [Res.context, Res.worker, Res.ep 0, Res.ep 1],
              ucp_context := true, ucp_worker := true, endpoints := true, rkeys := false,
              register_buffer := false, remote_addresses := false, misuse := false })
      ∧ (comm_finalize 2
          (reg_buffer k 2 { RegEnv.all_ok with malloc_raddrs := false }
            (World.booted k)).2).misuse = true := by
  rw [booted_eq]
  simp [reg_buffer, RegEnv.all_ok, mpi_buffer_exchange, unpack_loop, reg_fail_full,
    reg_fail_endpoints, reg_fail, World.acquire, World.release, World.free, range_two,
    comm_finalize, finalize_loop]

/-- C9 on the code: `comm_init` with two peers. When `ucp_init` fails it
returns `-1` still holding the configuration. When `ucp_worker_create` fails
it returns `-1` still holding the context, `ucp_context` set. When
`ucp_ep_create` fails for peer 1 it still holds the context, the worker, the
endpoint of peer 0, the address array and the blob of peer 1, with
`ucp_context`, `ucp_worker` and the (freed) `endpoints` all set. -/
theorem comm_init_failure (k : Codes) :
    comm_init k 2 { InitEnv.all_ok with init := false } World.fresh
        = (-1, { World.fresh with held := [Res.config] })
      ∧ comm_init k 2 { InitEnv.all_ok with worker_create := false } World.fresh
        = (-1, { World.fresh with held := [Res.context], ucp_context := true })
      ∧ (comm_init k 2 { InitEnv.all_ok with ep_create := fun i => decide (i = 0) }
          World.fresh).2
        = { held := [Res.context, Res.worker, Res.addr_table, Res.addr_blob 1, Res.ep 0],
            ucp_context := true, ucp_worker := true, endpoints := true, rkeys := false,
            register_buffer := false, remote_addresses := false, misuse := false } := by
  simp [comm_init, InitEnv.all_ok, create_ucp_endpoints, mpi_worker_exchange,
    create_loop, World.acquire, World.release, World.free, World.fresh, range_two]

end Ucx
